import Mathlib

/-!
Verification of the gprofiler agent core against its specification.

The Python sources are shallowly embedded: pure control flow becomes Lean
functions, raised exceptions become `Except`, Python `collections.Counter`
and `dict` become association lists with explicit update operations, and
`collections.deque` becomes `List`.
-/

namespace GProfiler

/-! ### Generic association-list counter

Models Python `collections.Counter` / `dict`: insertion-ordered association
list.  `counterAdd m k v` models `m[k] += v` (the entry is created when
absent, even for `v = 0`, exactly as `Counter.__missing__` does). -/

def counterAdd {α : Type} [DecidableEq α] : List (α × Int) → α → Int → List (α × Int)
  | [], k, v => [(k, v)]
  | (k', v') :: rest, k, v =>
    if k' = k then (k', v' + v) :: rest else (k', v') :: counterAdd rest k v

def counterLookup {α : Type} [DecidableEq α] : List (α × Int) → α → Option Int
  | [], _ => none
  | (k', v') :: rest, k => if k' = k then some v' else counterLookup rest k

def sumValues {α : Type} (m : List (α × Int)) : Int :=
  (m.map (·.2)).sum

/-! ## Command queues (`gprofiler/command_control.py`)

`ProfilingCommand` carries a `profiling_command` config dict and a timestamp
in the source; neither is read by any queue operation, so they are not part
of the embedded record. -/

structure ProfilingCommand where
  command_id : String
  command_type : String
  is_continuous : Bool
deriving DecidableEq, Repr

def ADHOC_QUEUE_MAX_SIZE : Nat := 10

def CONTINUOUS_QUEUE_MAX_SIZE : Nat := 1

structure CommandManager where
  adhoc_queue : List ProfilingCommand
  continuous_queue : List ProfilingCommand
deriving DecidableEq, Repr

def CommandManager.init : CommandManager := ⟨[], []⟩

/-- `CommandManager.enqueue_command`: appends to the queue selected by
`is_continuous`, or drops the incoming command (returning `False`, modelled
by the `Bool` component) when that queue is at its bound. -/
def enqueue_command (m : CommandManager) (cmd : ProfilingCommand) : CommandManager × Bool :=
  if cmd.is_continuous then
    if CONTINUOUS_QUEUE_MAX_SIZE ≤ m.continuous_queue.length then
      (m, false)
    else
      ({ m with continuous_queue := m.continuous_queue ++ [cmd] }, true)
  else
    if ADHOC_QUEUE_MAX_SIZE ≤ m.adhoc_queue.length then
      (m, false)
    else
      ({ m with adhoc_queue := m.adhoc_queue ++ [cmd] }, true)

/-- `CommandManager.get_next_command`: pops the oldest ad-hoc command if any,
else the oldest continuous command, else returns `None`. -/
def get_next_command (m : CommandManager) : CommandManager × Option ProfilingCommand :=
  match m.adhoc_queue with
  | c :: rest => ({ m with adhoc_queue := rest }, some c)
  | [] =>
    match m.continuous_queue with
    | c :: rest => ({ m with continuous_queue := rest }, some c)
    | [] => (m, none)

def enqueue_all (cmds : List ProfilingCommand) : CommandManager :=
  cmds.foldl (fun s c => (enqueue_command s c).1) CommandManager.init

def drainFuel : Nat → CommandManager → List ProfilingCommand
  | 0, _ => []
  | n + 1, m =>
    match get_next_command m with
    | (_, none) => []
    | (m', some c) => c :: drainFuel n m'

/-- Repeated `get_next_command` until it returns `None`. -/
def drain (m : CommandManager) : List ProfilingCommand :=
  drainFuel (m.adhoc_queue.length + m.continuous_queue.length) m

theorem drainFuel_eq (n : Nat) :
    ∀ (a k : List ProfilingCommand), a.length + k.length ≤ n →
      drainFuel n ⟨a, k⟩ = a ++ k := by
  induction n with
  | zero =>
    intro a k h
    have ha : a = [] := List.eq_nil_of_length_eq_zero (by omega)
    have hk : k = [] := List.eq_nil_of_length_eq_zero (by omega)
    subst ha; subst hk; rfl
  | succ n ih =>
    intro a k h
    match a with
    | c :: rest =>
      simp only [drainFuel, get_next_command]
      have := ih rest k (by simp at h; omega)
      simp [this]
    | [] =>
      match k with
      | [] => rfl
      | c :: rest =>
        simp only [drainFuel, get_next_command]
        have := ih [] rest (by simp at h ⊢; omega)
        simp [this]

theorem drain_eq (m : CommandManager) :
    drain m = m.adhoc_queue ++ m.continuous_queue := by
  have := drainFuel_eq (m.adhoc_queue.length + m.continuous_queue.length)
    m.adhoc_queue m.continuous_queue (le_refl _)
  simpa [drain] using this

theorem enqueue_foldl (cmds : List ProfilingCommand) :
    ∀ (a k : List ProfilingCommand),
      cmds.foldl (fun s c => (enqueue_command s c).1) ⟨a, k⟩ =
        ⟨a ++ (cmds.filter (fun c => !c.is_continuous)).take (ADHOC_QUEUE_MAX_SIZE - a.length),
         k ++ (cmds.filter (fun c => c.is_continuous)).take (CONTINUOUS_QUEUE_MAX_SIZE - k.length)⟩ := by
  induction cmds with
  | nil => intro a k; simp
  | cons c rest ih =>
    intro a k
    by_cases hc : c.is_continuous
    · by_cases hfull : CONTINUOUS_QUEUE_MAX_SIZE ≤ k.length
      · have hstep : (enqueue_command ⟨a, k⟩ c).1 = ⟨a, k⟩ := by
          simp [enqueue_command, hc, hfull]
        have htake : CONTINUOUS_QUEUE_MAX_SIZE - k.length = 0 := by omega
        simp only [List.foldl_cons, hstep, ih a k, htake, List.filter_cons]
        simp [hc, htake]
      · have hstep : (enqueue_command ⟨a, k⟩ c).1 = ⟨a, k ++ [c]⟩ := by
          simp [enqueue_command, hc, hfull]
        have hlen : CONTINUOUS_QUEUE_MAX_SIZE - k.length =
            (CONTINUOUS_QUEUE_MAX_SIZE - (k.length + 1)) + 1 := by
          simp only [CONTINUOUS_QUEUE_MAX_SIZE] at hfull ⊢; omega
        simp only [List.foldl_cons, hstep, ih a (k ++ [c]), List.filter_cons]
        simp [hc, hlen, List.take_succ_cons]
    · by_cases hfull : ADHOC_QUEUE_MAX_SIZE ≤ a.length
      · have hstep : (enqueue_command ⟨a, k⟩ c).1 = ⟨a, k⟩ := by
          simp [enqueue_command, hc, hfull]
        have htake : ADHOC_QUEUE_MAX_SIZE - a.length = 0 := by omega
        simp only [List.foldl_cons, hstep, ih a k, htake, List.filter_cons]
        simp [hc, htake]
      · have hstep : (enqueue_command ⟨a, k⟩ c).1 = ⟨a ++ [c], k⟩ := by
          simp [enqueue_command, hc, hfull]
        have hlen : ADHOC_QUEUE_MAX_SIZE - a.length =
            (ADHOC_QUEUE_MAX_SIZE - (a.length + 1)) + 1 := by
          simp only [ADHOC_QUEUE_MAX_SIZE] at hfull ⊢; omega
        simp only [List.foldl_cons, hstep, ih (a ++ [c]) k, List.filter_cons]
        simp [hc, hlen, List.take_succ_cons]

theorem enqueue_all_eq (cmds : List ProfilingCommand) :
    enqueue_all cmds =
      ⟨(cmds.filter (fun c => !c.is_continuous)).take ADHOC_QUEUE_MAX_SIZE,
       (cmds.filter (fun c => c.is_continuous)).take CONTINUOUS_QUEUE_MAX_SIZE⟩ := by
  simpa [enqueue_all, CommandManager.init] using enqueue_foldl cmds [] []

/-- Claim C1: after any sequence of enqueues, `get_next_command` returns the
oldest ad-hoc command if any exists, else the oldest continuous command, else
none; repeatedly dequeuing yields the queued ad-hoc commands in FIFO arrival
order (a prefix of the arriving non-continuous commands) strictly before any
continuous command. -/
theorem get_next_command_adhoc_fifo_priority (cmds : List ProfilingCommand) :
    (get_next_command (enqueue_all cmds)).2 =
      ((enqueue_all cmds).adhoc_queue ++ (enqueue_all cmds).continuous_queue).head? ∧
    drain (enqueue_all cmds) =
      (enqueue_all cmds).adhoc_queue ++ (enqueue_all cmds).continuous_queue ∧
    (enqueue_all cmds).adhoc_queue =
      (cmds.filter (fun c => !c.is_continuous)).take ADHOC_QUEUE_MAX_SIZE ∧
    (enqueue_all cmds).continuous_queue =
      (cmds.filter (fun c => c.is_continuous)).take CONTINUOUS_QUEUE_MAX_SIZE := by
  refine ⟨?_, drain_eq _, by rw [enqueue_all_eq], by rw [enqueue_all_eq]⟩
  rcases h : enqueue_all cmds with ⟨a, k⟩
  match a with
  | [] =>
    match k with
    | [] => rfl
    | c :: rest => rfl
  | c :: rest => rfl

/-- Claim C2: both queues respect their bounds after any sequence of
operations, an enqueue is dropped (returns `False`) exactly when the matching
queue is at its bound, and a dropped enqueue mutates neither queue. -/
theorem command_queues_bounded (cmds : List ProfilingCommand)
    (m : CommandManager) (c : ProfilingCommand) :
    (enqueue_all cmds).adhoc_queue.length ≤ ADHOC_QUEUE_MAX_SIZE ∧
    (enqueue_all cmds).continuous_queue.length ≤ CONTINUOUS_QUEUE_MAX_SIZE ∧
    ((enqueue_command m c).2 = false ↔
      (if c.is_continuous then CONTINUOUS_QUEUE_MAX_SIZE ≤ m.continuous_queue.length
       else ADHOC_QUEUE_MAX_SIZE ≤ m.adhoc_queue.length)) ∧
    ((enqueue_command m c).2 = false → (enqueue_command m c).1 = m) := by
  refine ⟨?_, ?_, ?_, ?_⟩
  · rw [enqueue_all_eq]; exact List.length_take_le _ _
  · rw [enqueue_all_eq]; exact List.length_take_le _ _
  · by_cases hc : c.is_continuous
    · by_cases hfull : CONTINUOUS_QUEUE_MAX_SIZE ≤ m.continuous_queue.length <;>
        simp [enqueue_command, hc, hfull]
    · by_cases hfull : ADHOC_QUEUE_MAX_SIZE ≤ m.adhoc_queue.length <;>
        simp [enqueue_command, hc, hfull]
  · intro hdrop
    by_cases hc : c.is_continuous
    · by_cases hfull : CONTINUOUS_QUEUE_MAX_SIZE ≤ m.continuous_queue.length
      · simp [enqueue_command, hc, hfull]
      · simp [enqueue_command, hc, hfull] at hdrop
    · by_cases hfull : ADHOC_QUEUE_MAX_SIZE ≤ m.adhoc_queue.length
      · simp [enqueue_command, hc, hfull]
      · simp [enqueue_command, hc, hfull] at hdrop

/-- Witness for C2: an enqueue on a full continuous queue is dropped and the
manager is unchanged. -/
theorem command_queues_bounded_witness :
    (enqueue_command
        ⟨[], [⟨"c1", "start", true⟩]⟩ ⟨"c2", "start", true⟩).1 =
      ⟨[], [⟨"c1", "start", true⟩]⟩ :=
  (command_queues_bounded [] ⟨[], [⟨"c1", "start", true⟩]⟩ ⟨"c2", "start", true⟩).2.2.2
    (by decide)

/-! ## Heartbeat loop and command idempotency (`gprofiler/heartbeat.py`)

`HeartbeatClient.executed_command_ids` is a Python `set`; it is embedded as
an insertion-ordered duplicate-free list.  `_cleanup_old_command_ids` keeps
an arbitrary `max_command_history`-element subset (Python set iteration
order is unspecified); the embedding keeps the most recent entries.  The
theorem below restricts attention to traces in which the eviction branch is
never reached, so this resolution of the nondeterminism is not load-bearing. -/

structure HeartbeatResponse where
  command_id : String
  command_type : String
deriving DecidableEq, Repr

def max_command_history : Nat := 1000

structure HeartbeatClientState where
  executed_command_ids : List String
  last_command_id : Option String
deriving DecidableEq, Repr

def HeartbeatClientState.init : HeartbeatClientState := ⟨[], none⟩

/-- `HeartbeatClient.mark_command_executed`: add the id to the executed set,
then evict down to `max_command_history` entries when the bound is exceeded. -/
def mark_command_executed (s : HeartbeatClientState) (cid : String) : HeartbeatClientState :=
  let ids :=
    if cid ∈ s.executed_command_ids then s.executed_command_ids
    else s.executed_command_ids ++ [cid]
  let ids :=
    if max_command_history < ids.length then ids.drop (ids.length - max_command_history)
    else ids
  { s with executed_command_ids := ids }

/-- Observable profiler-lifecycle actions taken by the heartbeat loop. -/
inductive LifecycleCall where
  | stopCurrentProfiler
  | startNewProfiler (command_id : String)
  | sendCommandCompletion (command_id : String) (completed : Bool)
deriving DecidableEq, Repr

/-- One iteration of `DynamicGProfilerManager.start_heartbeat_loop`, reduced
to its command-processing effect: a response whose `command_id` is already in
`executed_command_ids` is skipped without touching the lifecycle; otherwise
the id is marked executed, `last_command_id` is set, and the branch on
`command_type` performs the stop/start lifecycle calls and reports
completion. -/
def heartbeat_step (s : HeartbeatClientState) (resp : Option HeartbeatResponse) :
    HeartbeatClientState × List LifecycleCall :=
  match resp with
  | none => (s, [])
  | some r =>
    if r.command_id ∈ s.executed_command_ids then
      (s, [])
    else
      let s1 := mark_command_executed s r.command_id
      let s2 := { s1 with last_command_id := some r.command_id }
      if r.command_type = "stop" then
        (s2, [.stopCurrentProfiler, .sendCommandCompletion r.command_id true])
      else if r.command_type = "start" then
        (s2, [.stopCurrentProfiler, .startNewProfiler r.command_id,
              .sendCommandCompletion r.command_id true])
      else
        (s2, [.sendCommandCompletion r.command_id false])

def run_heartbeat_loop (resps : List (Option HeartbeatResponse)) :
    HeartbeatClientState × List LifecycleCall :=
  resps.foldl
    (fun acc r => ((heartbeat_step acc.1 r).1, acc.2 ++ (heartbeat_step acc.1 r).2))
    (HeartbeatClientState.init, [])

def responseIds (resps : List (Option HeartbeatResponse)) : List String :=
  resps.filterMap (fun r => r.map (·.command_id))

theorem mark_no_evict (s : HeartbeatClientState) (cid : String)
    (hnot : cid ∉ s.executed_command_ids)
    (hlen : s.executed_command_ids.length + 1 ≤ max_command_history) :
    (mark_command_executed s cid).executed_command_ids =
      s.executed_command_ids ++ [cid] := by
  simp only [mark_command_executed, if_neg hnot]
  rw [if_neg (by simp; omega)]

theorem heartbeat_loop_inv (U : Finset String) (hcard : U.card ≤ max_command_history) :
    ∀ (resps : List (Option HeartbeatResponse)) (s : HeartbeatClientState)
      (log : List LifecycleCall),
      (∀ cid ∈ responseIds resps, cid ∈ U) →
      s.executed_command_ids.Nodup →
      (∀ cid ∈ s.executed_command_ids, cid ∈ U) →
      (∀ cid, LifecycleCall.startNewProfiler cid ∈ log → cid ∈ s.executed_command_ids) →
      (∀ cid, log.count (LifecycleCall.startNewProfiler cid) ≤ 1) →
      ∀ cid,
        ((resps.foldl
            (fun acc r => ((heartbeat_step acc.1 r).1, acc.2 ++ (heartbeat_step acc.1 r).2))
            (s, log)).2.count (LifecycleCall.startNewProfiler cid)) ≤ 1 := by
  intro resps
  induction resps with
  | nil =>
    intro s log _ _ _ _ hcount cid
    simpa using hcount cid
  | cons r rest ih =>
    intro s log hU hnodup hsub hlog hcount cid
    match r with
    | none =>
      simp only [List.foldl_cons, heartbeat_step, List.append_nil]
      exact ih s log (fun c hc => hU c (by simpa [responseIds] using hc))
        hnodup hsub hlog hcount cid
    | some resp =>
      have hUrest : ∀ c ∈ responseIds rest, c ∈ U := fun c hc =>
        hU c (by simp [responseIds] at hc ⊢; exact Or.inr hc)
      have hUresp : resp.command_id ∈ U := hU _ (by simp [responseIds])
      by_cases hmem : resp.command_id ∈ s.executed_command_ids
      · simp only [List.foldl_cons, heartbeat_step, if_pos hmem, List.append_nil]
        exact ih s log hUrest hnodup hsub hlog hcount cid
      · -- the executed set is strictly smaller than `U`, so no eviction occurs
        have hlt : s.executed_command_ids.length < U.card := by
          have hfin : s.executed_command_ids.toFinset ⊆ U := by
            intro x hx
            exact hsub x (by simpa using hx)
          have hss : s.executed_command_ids.toFinset ⊂ U :=
            (Finset.ssubset_iff_of_subset hfin).mpr
              ⟨resp.command_id, hUresp, by simpa using hmem⟩
          have := Finset.card_lt_card hss
          rwa [List.toFinset_card_of_nodup hnodup] at this
        have hexec : (mark_command_executed s resp.command_id).executed_command_ids =
            s.executed_command_ids ++ [resp.command_id] :=
          mark_no_evict s resp.command_id hmem (by omega)
        have hnodup2 : (s.executed_command_ids ++ [resp.command_id]).Nodup := by
          simp [List.nodup_append, hnodup, hmem]
        have hsub2 : ∀ c ∈ s.executed_command_ids ++ [resp.command_id], c ∈ U := by
          intro c hc
          rcases List.mem_append.mp hc with hc | hc
          · exact hsub c hc
          · simp at hc; subst hc; exact hUresp
        have hstartlog : LifecycleCall.startNewProfiler resp.command_id ∉ log := by
          intro hin
          exact hmem (hlog _ hin)
        have hcount0 : log.count (LifecycleCall.startNewProfiler resp.command_id) = 0 :=
          List.count_eq_zero.mpr hstartlog
        -- process the three command_type branches uniformly
        have key : ∀ (calls : List LifecycleCall),
            (∀ c, LifecycleCall.startNewProfiler c ∈ calls → c = resp.command_id) →
            (calls.count (LifecycleCall.startNewProfiler resp.command_id) ≤ 1) →
            ∀ c,
              ((rest.foldl
                  (fun acc r => ((heartbeat_step acc.1 r).1, acc.2 ++ (heartbeat_step acc.1 r).2))
                  ({ executed_command_ids := s.executed_command_ids ++ [resp.command_id],
                     last_command_id := some resp.command_id }, log ++ calls)).2.count
                (LifecycleCall.startNewProfiler c)) ≤ 1 := by
          intro calls hcallsOnly hcallsCount c
          refine ih _ (log ++ calls) hUrest hnodup2 hsub2 ?_ ?_ c
          · intro c' hc'
            rcases List.mem_append.mp hc' with hc' | hc'
            · exact List.mem_append.mpr (Or.inl (hlog c' hc'))
            · have := hcallsOnly c' hc'
              subst this
              simp
          · intro c'
            rw [List.count_append]
            by_cases hc' : c' = resp.command_id
            · subst hc'
              rw [hcount0]
              simpa using hcallsCount
            · have : calls.count (LifecycleCall.startNewProfiler c') = 0 := by
                refine List.count_eq_zero.mpr ?_
                intro hin
                exact hc' (hcallsOnly c' hin)
              rw [this]
              simpa using hcount c'
        by_cases hstop : resp.command_type = "stop"
        · simp only [List.foldl_cons, heartbeat_step, if_neg hmem, if_pos hstop]
          have := key [.stopCurrentProfiler, .sendCommandCompletion resp.command_id true]
            (by intro c hc; simp at hc) (by simp)
          simpa [hexec] using this cid
        · by_cases hstart : resp.command_type = "start"
          · simp only [List.foldl_cons, heartbeat_step, if_neg hmem, if_neg hstop,
              if_pos hstart]
            have := key [.stopCurrentProfiler, .startNewProfiler resp.command_id,
              .sendCommandCompletion resp.command_id true]
              (by intro c hc; simpa using hc) (by simp [List.count_cons])
            simpa [hexec] using this cid
          · simp only [List.foldl_cons, heartbeat_step, if_neg hmem, if_neg hstop,
              if_neg hstart]
            have := key [.sendCommandCompletion resp.command_id false]
              (by intro c hc; simp at hc) (by simp)
            simpa [hexec] using this cid

/-- Claim C3: a heartbeat response whose `command_id` is already in the
executed-command set is skipped without any lifecycle call, and over any
trace of heartbeat responses whose distinct command ids fit in the
idempotency bound, `_start_new_profiler` runs at most once per command id. -/
theorem command_executed_at_most_once (resps : List (Option HeartbeatResponse))
    (h : (responseIds resps).toFinset.card ≤ max_command_history) :
    (∀ (s : HeartbeatClientState) (r : HeartbeatResponse),
        r.command_id ∈ s.executed_command_ids → heartbeat_step s (some r) = (s, [])) ∧
    ∀ cid, (run_heartbeat_loop resps).2.count (LifecycleCall.startNewProfiler cid) ≤ 1 := by
  constructor
  · intro s r hmem
    simp [heartbeat_step, hmem]
  · intro cid
    have := heartbeat_loop_inv (responseIds resps).toFinset h resps
      HeartbeatClientState.init []
      (by intro c hc; simpa using hc)
      (by simp [HeartbeatClientState.init])
      (by simp [HeartbeatClientState.init])
      (by simp)
      (by simp)
      cid
    simpa [run_heartbeat_loop] using this

/-- Witness for C3: a duplicated `start` command id is executed once. -/
theorem command_executed_at_most_once_witness :
    (run_heartbeat_loop
        [some ⟨"c5", "start"⟩, some ⟨"c5", "start"⟩]).2.count
      (LifecycleCall.startNewProfiler "c5") ≤ 1 :=
  (command_executed_at_most_once
      [some ⟨"c5", "start"⟩, some ⟨"c5", "start"⟩] (by decide)).2 "c5"

/-! ## Kernel-sampler supervisor construction (`gprofiler/utils/perf_process.py`)

`PerfProcess.__init__` decides the profiling strategy.  The host-dependent
probes `is_cgroup_available()`, `validate_perf_cgroup_support()` and the
enumeration result `get_top_cgroup_names_for_perf(...)` are passed in as
parameters.  The inner `raise PerfNoSupportedEvent` statements are caught by
the enclosing `except Exception` block and re-raised wrapped in another
`PerfNoSupportedEvent`, so only the wrapped message survives. -/

inductive PerfInitException where
  | perfNoSupportedEvent (msg : String)
deriving DecidableEq, Repr

structure PerfArgs where
  pid_args : List String
  cgroup_args : List String
deriving DecidableEq, Repr

def perf_process_init (use_cgroups cgroup_available perf_cgroup_support : Bool)
    (top_cgroups : List String) (processes_to_profile : Option (List Nat))
    (max_docker_containers max_cgroups : Nat) : Except PerfInitException PerfArgs :=
  if use_cgroups && cgroup_available && perf_cgroup_support then
    if top_cgroups = [] then
      Except.error (.perfNoSupportedEvent ("Cgroup profiling failed: " ++
        (if 0 < max_docker_containers then
          "Docker container profiling requested but no containers available"
        else if 0 < max_cgroups then
          "Cgroup profiling requested but no cgroups available"
        else
          "Cgroup profiling requested but no containers or cgroups specified")))
    else
      Except.ok ⟨["-a"], ["-G", String.intercalate "," top_cgroups]⟩
  else
    match processes_to_profile with
    | some ps => Except.ok ⟨["--pid", String.intercalate "," (ps.map toString)], []⟩
    | none => Except.ok ⟨["-a"], []⟩

/-- Claim C4 as stated: with `use_cgroups` requested, an empty cgroup
enumeration always fails the constructor, and the bare system-wide `-a`
argument vector is never produced. -/
def c4_claim : Prop :=
  ∀ (use_cgroups cgroup_available perf_cgroup_support : Bool)
    (top_cgroups : List String) (processes_to_profile : Option (List Nat))
    (max_docker_containers max_cgroups : Nat),
    use_cgroups = true →
    ((top_cgroups = [] →
        ∀ r, perf_process_init use_cgroups cgroup_available perf_cgroup_support
          top_cgroups processes_to_profile max_docker_containers max_cgroups ≠
            Except.ok r) ∧
      ∀ r, perf_process_init use_cgroups cgroup_available perf_cgroup_support
          top_cgroups processes_to_profile max_docker_containers max_cgroups =
            Except.ok r →
        ¬(r.pid_args = ["-a"] ∧ r.cgroup_args = []))

/-- Counterexample to C4: with `use_cgroups = True` but the cgroup
filesystem unavailable (`is_cgroup_available()` false), `__init__` falls
through to the bare system-wide `-a` branch instead of raising. -/
theorem c4_claim_false : ¬c4_claim := by
  intro h
  exact (h true false true [] none 0 50 rfl).1 rfl ⟨["-a"], []⟩ rfl

/-- Claim C4 amended: when cgroup scoping is requested *and* the cgroup
support checks pass (`is_cgroup_available()` and
`validate_perf_cgroup_support()`), an empty enumeration raises
`PerfNoSupportedEvent` rather than falling back; the bare `-a` system-wide
argument vector arises only when the cgroup-scoped branch was not entered
and no PID list was given. -/
theorem perf_cgroup_no_fallback (use_cgroups cgroup_available perf_cgroup_support : Bool)
    (top_cgroups : List String) (processes_to_profile : Option (List Nat))
    (max_docker_containers max_cgroups : Nat) :
    ((use_cgroups && cgroup_available && perf_cgroup_support) = true →
      top_cgroups = [] →
      ∃ msg, perf_process_init use_cgroups cgroup_available perf_cgroup_support
          top_cgroups processes_to_profile max_docker_containers max_cgroups =
        Except.error (.perfNoSupportedEvent msg)) ∧
    (∀ r, perf_process_init use_cgroups cgroup_available perf_cgroup_support
        top_cgroups processes_to_profile max_docker_containers max_cgroups =
          Except.ok r →
      r.pid_args = ["-a"] → r.cgroup_args = [] →
      (use_cgroups && cgroup_available && perf_cgroup_support) = false ∧
        processes_to_profile = none) := by
  constructor
  · intro hcg hempty
    refine ⟨"Cgroup profiling failed: " ++
      (if 0 < max_docker_containers then
        "Docker container profiling requested but no containers available"
      else if 0 < max_cgroups then
        "Cgroup profiling requested but no cgroups available"
      else
        "Cgroup profiling requested but no containers or cgroups specified"), ?_⟩
    simp [perf_process_init, hcg, hempty]
  · intro r hr hpid hcgargs
    by_cases hcg : (use_cgroups && cgroup_available && perf_cgroup_support) = true
    · by_cases hempty : top_cgroups = []
      · simp [perf_process_init, hcg, hempty] at hr
      · simp [perf_process_init, hcg, hempty] at hr
        rw [← hr] at hcgargs
        simp at hcgargs
    · refine ⟨by simpa using hcg, ?_⟩
      rcases processes_to_profile with _ | ps
      · rfl
      · exfalso
        simp [perf_process_init, hcg] at hr
        rw [← hr] at hpid
        simp at hpid

/-- Witness for the amended C4: scoping requested, checks pass, enumeration
empty: construction fails with `PerfNoSupportedEvent`. -/
theorem perf_cgroup_no_fallback_witness :
    ∃ msg, perf_process_init true true true [] none 5 50 =
      Except.error (.perfNoSupportedEvent msg) :=
  (perf_cgroup_no_fallback true true true [] none 5 50).1 rfl rfl

/-! ## Perf event-type discovery (`gprofiler/utils/perf.py`)

`discover_appropriate_perf_event` tries each `SupportedPerfEvent` in turn;
the result of one probe (run perf, parse its script output, or the
classified exception) is passed in via `trial`.  PID-related errors are
counted only when a PID list was supplied (`pids is not None`). -/

inductive SupportedPerfEvent where
  | PERF_DEFAULT
  | PERF_SW_CPU_CLOCK
  | PERF_SW_TASK_CLOCK
deriving DecidableEq, Repr

/-- Declaration order of the enum, the order `for event in SupportedPerfEvent`
iterates in (the source stresses that `PERF_DEFAULT` must come first). -/
def SupportedPerfEvent.values : List SupportedPerfEvent :=
  [.PERF_DEFAULT, .PERF_SW_CPU_CLOCK, .PERF_SW_TASK_CLOCK]

inductive PerfTrialOutcome where
  | scripted (parsed_sample_count : Nat)
  | segfault
  | pidRelatedError
  | otherException (excName : String)
deriving DecidableEq, Repr

structure DiscoveryError where
  all_segfaulted : Bool
  all_pid_failed : Bool
deriving DecidableEq, Repr

def discover_go (trial : SupportedPerfEvent → PerfTrialOutcome) (pids_given : Bool) :
    List SupportedPerfEvent → Nat → Nat → Except DiscoveryError SupportedPerfEvent
  | [], seg, pidf =>
    Except.error ⟨decide (seg = SupportedPerfEvent.values.length),
      decide (pidf = SupportedPerfEvent.values.length)⟩
  | e :: rest, seg, pidf =>
    match trial e with
    | .scripted n =>
      if 0 < n then Except.ok e else discover_go trial pids_given rest seg pidf
    | .segfault => discover_go trial pids_given rest (seg + 1) pidf
    | .pidRelatedError =>
      if pids_given then discover_go trial pids_given rest seg (pidf + 1)
      else discover_go trial pids_given rest seg pidf
    | .otherException _ => discover_go trial pids_given rest seg pidf

/-- `discover_appropriate_perf_event`: returns the first event family whose
probe produces samples, else raises `PerfNoSupportedEvent` (carrying which
all-failed diagnostic was logged). -/
def discover_appropriate_perf_event (trial : SupportedPerfEvent → PerfTrialOutcome)
    (pids_given : Bool) : Except DiscoveryError SupportedPerfEvent :=
  discover_go trial pids_given SupportedPerfEvent.values 0 0

/-- Modelled from the spec: the sampler supervisor startup sequence
(`gprofiler/profilers/perf.py`, absent from `src/`) catches
`PerfNoSupportedEvent` from discovery, proceeds with the default event
anyway, and surfaces the failure as a warning/metric (the `Bool` component)
instead of aborting. -/
def supervisor_discover (trial : SupportedPerfEvent → PerfTrialOutcome)
    (pids_given : Bool) : SupportedPerfEvent × Bool :=
  match discover_appropriate_perf_event trial pids_given with
  | .ok e => (e, false)
  | .error _ => (.PERF_DEFAULT, true)

/-- Claim C5: when every event family probe dies with a fatal signal,
discovery raises with the all-segfaulted diagnostic and the supervisor
still proceeds with the default event, surfacing the error instead of
aborting. -/
theorem discovery_segfaults_not_fatal (trial : SupportedPerfEvent → PerfTrialOutcome)
    (pids_given : Bool) (h : ∀ e, trial e = .segfault) :
    discover_appropriate_perf_event trial pids_given =
      Except.error ⟨true, false⟩ ∧
    supervisor_discover trial pids_given = (.PERF_DEFAULT, true) := by
  have h1 : discover_appropriate_perf_event trial pids_given =
      Except.error ⟨true, false⟩ := by
    simp [discover_appropriate_perf_event, SupportedPerfEvent.values, discover_go, h]
  exact ⟨h1, by simp [supervisor_discover, h1]⟩

/-- Witness for C5: all three event families segfault; the supervisor starts
with `PERF_DEFAULT` and a surfaced warning. -/
theorem discovery_segfaults_not_fatal_witness :
    supervisor_discover (fun _ => .segfault) true = (.PERF_DEFAULT, true) :=
  (discovery_segfaults_not_fatal (fun _ => .segfault) true (fun _ => rfl)).2

/-! ## Periodic restart check (`gprofiler/utils/perf_process.py`)

`__init__` sets `self._start_time = 0.0`; `start()` assigns
`self.start_time = time.monotonic()` (no leading underscore) while
`restart_if_rss_exceeded` reads `self._start_time`.  Both attributes are
embedded so the divergence is visible.  Times are monotonic-clock seconds. -/

def PERF_RESTART_AFTER_S : Nat := 600

def PERF_MEMORY_USAGE_THRESHOLD : Nat := 200 * 1024 * 1024

structure PerfProcessClock where
  _start_time : Nat
  start_time : Option Nat
deriving DecidableEq, Repr

/-- `PerfProcess.__init__`: `self._start_time = 0.0`; `self.start_time` is
not assigned at all until `start()` runs. -/
def PerfProcessClock.init : PerfProcessClock := ⟨0, none⟩

/-- `PerfProcess.start` at monotonic time `now`: assigns `self.start_time`
(and not `self._start_time`). -/
def perf_start (s : PerfProcessClock) (now : Nat) : PerfProcessClock :=
  { s with start_time := some now }

/-- The condition under which `PerfProcess.restart_if_rss_exceeded` restarts
the child: `time.monotonic() - self._start_time >= _RESTART_AFTER_S and
perf_rss >= _PERF_MEMORY_USAGE_THRESHOLD`. -/
def restart_if_rss_exceeded_restarts (s : PerfProcessClock) (now rss : Nat) : Bool :=
  decide (PERF_RESTART_AFTER_S ≤ now - s._start_time) &&
    decide (PERF_MEMORY_USAGE_THRESHOLD ≤ rss)

/-- Claim C6 fails on the code: a child started at monotonic second 900 and
checked at second 1000 has been running 100 s < 600 s, yet with RSS at the
threshold the check restarts it, because `start()` assigned `start_time`
while the check reads `_start_time`, still 0. -/
theorem restart_uptime_gate_broken :
    (perf_start PerfProcessClock.init 900).start_time = some 900 ∧
    (perf_start PerfProcessClock.init 900)._start_time = 0 ∧
    1000 - 900 < PERF_RESTART_AFTER_S ∧
    restart_if_rss_exceeded_restarts (perf_start PerfProcessClock.init 900) 1000
      PERF_MEMORY_USAGE_THRESHOLD = true := by
  refine ⟨rfl, rfl, by decide, by decide⟩

/-! ## Per-process worker gathering (`gprofiler/profilers/profiler_base.py`)

`ProcessProfilerBase._wait_for_profiles` iterates completed futures
(`as_completed` yields them in an arbitrary order; the embedding iterates in
list order — every property proved below is order-insensitive).  A future is
keyed by `(pid, comm)`; its outcome is either a `ProfileData`, a `None`
result (the `assert result is not None` then raises `AssertionError`), or
one of the exception classes distinguished by the `except` chain. -/

abbrev StackToSampleCount := List (String × Int)

/-- Modelled from the spec: `ProfilingErrorStack` lives in
`gprofiler/gprofiler_types.py`, absent from `src/`.  The spec describes it
as a single synthetic one-sample stack built from the `what`, `reason` and
`comm` components (the call sites pass `what="error"`, yielding the
glossary form `error;<reason>;<comm>` with a count of 1). -/
def ProfilingErrorStack (what reason comm : String) : StackToSampleCount :=
  [(what ++ ";" ++ reason ++ ";" ++ comm, 1)]

structure ProfileData where
  profiling_data : StackToSampleCount
  app_id : Option String
  app_metadata : Option String
  container_name : Option String
deriving DecidableEq, Repr

inductive FutureOutcome where
  | ok (d : ProfileData)
  | okNone
  | stopEventSet
  | noSuchProcess
  | zombieProcess
  | otherException (excTypeName : String)
deriving DecidableEq, Repr

/-- Python `dict` assignment `m[k] = v` on an insertion-ordered assoc list. -/
def dictSet {α β : Type} [DecidableEq α] : List (α × β) → α → β → List (α × β)
  | [], k, v => [(k, v)]
  | (k', v') :: rest, k, v =>
    if k' = k then (k, v) :: rest else (k', v') :: dictSet rest k v

def dictGet {α β : Type} [DecidableEq α] : List (α × β) → α → Option β
  | [], _ => none
  | (k', v') :: rest, k => if k' = k then some v' else dictGet rest k

theorem dictGet_set_self {α β : Type} [DecidableEq α]
    (m : List (α × β)) (k : α) (v : β) : dictGet (dictSet m k v) k = some v := by
  induction m with
  | nil => simp [dictSet, dictGet]
  | cons p rest ih =>
    obtain ⟨k', v'⟩ := p
    by_cases h : k' = k <;> simp [dictSet, dictGet, h, ih]

theorem dictGet_set_ne {α β : Type} [DecidableEq α]
    (m : List (α × β)) (k k₀ : α) (v : β) (h : k ≠ k₀) :
    dictGet (dictSet m k v) k₀ = dictGet m k₀ := by
  induction m with
  | nil => simp [dictSet, dictGet, h]
  | cons p rest ih =>
    obtain ⟨k', v'⟩ := p
    by_cases hk : k' = k
    · subst hk
      simp [dictSet, dictGet, h]
    · simp [dictSet, dictGet, hk, ih]

theorem dictGet_set_isSome {α β : Type} [DecidableEq α]
    (m : List (α × β)) (k k₀ : α) (v : β) (h : (dictGet m k₀).isSome) :
    (dictGet (dictSet m k v) k₀).isSome := by
  by_cases hk : k = k₀
  · subst hk; simp [dictGet_set_self]
  · rwa [dictGet_set_ne m k k₀ v hk]

/-- The loop body of `_wait_for_profiles`, with the accumulated `results`
dict threaded through and `StopEventSetException` re-raised as
`Except.error`. -/
def wait_for_profiles_go (results : List (Nat × ProfileData)) :
    List ((Nat × String) × FutureOutcome) → Except Unit (List (Nat × ProfileData))
  | [] => Except.ok results
  | ((pid, comm), out) :: rest =>
    match out with
    | .stopEventSet => Except.error ()
    | .ok d => wait_for_profiles_go (dictSet results pid d) rest
    | .okNone =>
      wait_for_profiles_go (dictSet results pid
        ⟨ProfilingErrorStack "error" "exception AssertionError" comm,
          none, none, none⟩) rest
    | .noSuchProcess =>
      wait_for_profiles_go (dictSet results pid
        ⟨ProfilingErrorStack "error" "process went down during profiling" comm,
          none, none, none⟩) rest
    | .zombieProcess =>
      wait_for_profiles_go (dictSet results pid
        ⟨ProfilingErrorStack "error" "process went down during profiling" comm,
          none, none, none⟩) rest
    | .otherException n =>
      wait_for_profiles_go (dictSet results pid
        ⟨ProfilingErrorStack "error" ("exception " ++ n) comm,
          none, none, none⟩) rest

def wait_for_profiles (futures : List ((Nat × String) × FutureOutcome)) :
    Except Unit (List (Nat × ProfileData)) :=
  wait_for_profiles_go [] futures

/-- Pointwise description of what `_wait_for_profiles` stores for one
future (`none` for the re-raised stop-event case). -/
def classify_result (out : FutureOutcome) (comm : String) : Option ProfileData :=
  match out with
  | .stopEventSet => none
  | .ok d => some d
  | .okNone =>
    some ⟨ProfilingErrorStack "error" "exception AssertionError" comm, none, none, none⟩
  | .noSuchProcess =>
    some ⟨ProfilingErrorStack "error" "process went down during profiling" comm,
      none, none, none⟩
  | .zombieProcess =>
    some ⟨ProfilingErrorStack "error" "process went down during profiling" comm,
      none, none, none⟩
  | .otherException n =>
    some ⟨ProfilingErrorStack "error" ("exception " ++ n) comm, none, none, none⟩

theorem wait_go_cons_step (pid : Nat) (comm : String) (out : FutureOutcome)
    (rest : List ((Nat × String) × FutureOutcome)) (acc : List (Nat × ProfileData))
    (h : out ≠ .stopEventSet) :
    ∃ d, classify_result out comm = some d ∧
      wait_for_profiles_go acc (((pid, comm), out) :: rest) =
        wait_for_profiles_go (dictSet acc pid d) rest := by
  cases out with
  | stopEventSet => exact absurd rfl h
  | ok d => exact ⟨d, rfl, rfl⟩
  | okNone => exact ⟨_, rfl, rfl⟩
  | noSuchProcess => exact ⟨_, rfl, rfl⟩
  | zombieProcess => exact ⟨_, rfl, rfl⟩
  | otherException n => exact ⟨_, rfl, rfl⟩

theorem wait_go_error_iff (fs : List ((Nat × String) × FutureOutcome)) :
    ∀ acc, wait_for_profiles_go acc fs = Except.error () ↔
      ∃ f ∈ fs, f.2 = FutureOutcome.stopEventSet := by
  induction fs with
  | nil => intro acc; simp [wait_for_profiles_go]
  | cons f rest ih =>
    intro acc
    obtain ⟨⟨pid, comm⟩, out⟩ := f
    by_cases h : out = FutureOutcome.stopEventSet
    · subst h
      simp [wait_for_profiles_go]
    · obtain ⟨d, _, hstep⟩ := wait_go_cons_step pid comm out rest acc h
      rw [hstep, ih]
      simp [h]

theorem wait_go_preserves_isSome (fs : List ((Nat × String) × FutureOutcome)) :
    ∀ acc m pid, wait_for_profiles_go acc fs = Except.ok m →
      (dictGet acc pid).isSome → (dictGet m pid).isSome := by
  induction fs with
  | nil =>
    intro acc m pid h hsome
    simp [wait_for_profiles_go] at h
    subst h; exact hsome
  | cons f rest ih =>
    intro acc m pid h hsome
    obtain ⟨⟨pid', comm⟩, out⟩ := f
    by_cases hout : out = FutureOutcome.stopEventSet
    · subst hout; simp [wait_for_profiles_go] at h
    · obtain ⟨d, _, hstep⟩ := wait_go_cons_step pid' comm out rest acc hout
      rw [hstep] at h
      exact ih _ m pid h (dictGet_set_isSome acc pid' pid d hsome)

theorem wait_go_mem_isSome (fs : List ((Nat × String) × FutureOutcome)) :
    ∀ acc m, wait_for_profiles_go acc fs = Except.ok m →
      ∀ f ∈ fs, (dictGet m f.1.1).isSome := by
  induction fs with
  | nil => intro acc m _ f hf; simp at hf
  | cons g rest ih =>
    intro acc m h f hf
    obtain ⟨⟨pid', comm⟩, out⟩ := g
    by_cases hout : out = FutureOutcome.stopEventSet
    · subst hout; simp [wait_for_profiles_go] at h
    · obtain ⟨d, _, hstep⟩ := wait_go_cons_step pid' comm out rest acc hout
      rw [hstep] at h
      rcases List.mem_cons.mp hf with hf | hf
      · subst hf
        exact wait_go_preserves_isSome rest _ m pid' h
          (by simp [dictGet_set_self])
      · exact ih _ m h f hf

theorem wait_go_lookup_stable (fs : List ((Nat × String) × FutureOutcome)) :
    ∀ acc m pid, wait_for_profiles_go acc fs = Except.ok m →
      (∀ f ∈ fs, f.1.1 ≠ pid) → dictGet m pid = dictGet acc pid := by
  induction fs with
  | nil =>
    intro acc m pid h _
    simp [wait_for_profiles_go] at h
    subst h; rfl
  | cons f rest ih =>
    intro acc m pid h hne
    obtain ⟨⟨pid', comm⟩, out⟩ := f
    by_cases hout : out = FutureOutcome.stopEventSet
    · subst hout; simp [wait_for_profiles_go] at h
    · obtain ⟨d, _, hstep⟩ := wait_go_cons_step pid' comm out rest acc hout
      rw [hstep] at h
      have hpid' : pid' ≠ pid := hne ((pid', comm), out) (List.mem_cons_self _ _)
      rw [ih _ m pid h (fun f hf => hne f (List.mem_cons_of_mem _ hf))]
      exact dictGet_set_ne acc pid' pid d hpid'

theorem wait_go_lookup_nodup (fs : List ((Nat × String) × FutureOutcome)) :
    ∀ acc m, wait_for_profiles_go acc fs = Except.ok m →
      (fs.map (·.1.1)).Nodup →
      ∀ f ∈ fs, dictGet m f.1.1 = classify_result f.2 f.1.2 := by
  induction fs with
  | nil => intro acc m _ _ f hf; simp at hf
  | cons g rest ih =>
    intro acc m h hnodup f hf
    obtain ⟨⟨pid', comm⟩, out⟩ := g
    by_cases hout : out = FutureOutcome.stopEventSet
    · subst hout; simp [wait_for_profiles_go] at h
    · obtain ⟨d, hd, hstep⟩ := wait_go_cons_step pid' comm out rest acc hout
      rw [hstep] at h
      simp only [List.map_cons, List.nodup_cons] at hnodup
      rcases List.mem_cons.mp hf with hf | hf
      · subst hf
        have hstable := wait_go_lookup_stable rest _ m pid' h
          (by
            intro f' hf' heq
            exact hnodup.1 (by
              rw [← heq]
              exact List.mem_map.mpr ⟨f', hf', rfl⟩))
        simp only [hstable, dictGet_set_self, hd]
      · exact ih _ m h hnodup.2 f hf

/-- Claim C7: `StopEventSetException` propagates out of the gathering loop
(and only it does); in every other case the result map gains an entry for
the PID, and — when PIDs are distinct — that entry is exactly the
classified value: `NoSuchProcess`/`ZombieProcess` yield the
"process went down during profiling" error stack, any other exception
(including the `assert result is not None` failure) yields an
"exception <Kind>" error stack. -/
theorem wait_for_profiles_error_absorption
    (futures : List ((Nat × String) × FutureOutcome)) :
    (wait_for_profiles futures = Except.error () ↔
      ∃ f ∈ futures, f.2 = FutureOutcome.stopEventSet) ∧
    ∀ m, wait_for_profiles futures = Except.ok m →
      (∀ f ∈ futures, (dictGet m f.1.1).isSome) ∧
      ((futures.map (·.1.1)).Nodup →
        ∀ f ∈ futures, dictGet m f.1.1 = classify_result f.2 f.1.2) := by
  refine ⟨wait_go_error_iff futures [], fun m hm => ⟨?_, ?_⟩⟩
  · exact wait_go_mem_isSome futures [] m hm
  · exact wait_go_lookup_nodup futures [] m hm

/-- Witness for C7: one worker whose target exited is absorbed into a
"process went down during profiling" error-stack entry. -/
theorem wait_for_profiles_error_absorption_witness :
    dictGet
      [(1, ProfileData.mk
          (ProfilingErrorStack "error" "process went down during profiling" "bash")
          none none none)] 1 =
      classify_result FutureOutcome.noSuchProcess "bash" := by
  have h := (wait_for_profiles_error_absorption
      [((1, "bash"), FutureOutcome.noSuchProcess)]).2
    [(1, ProfileData.mk
        (ProfilingErrorStack "error" "process went down during profiling" "bash")
        none none none)]
    rfl
  exact h.2 (by decide) ((1, "bash"), FutureOutcome.noSuchProcess) (by decide)

/-! ## Python string primitives

`parse_one_collapsed` (`gprofiler/utils/collapsed_format.py`) is built from
`str.splitlines`, `str.strip`, `str.startswith`, `str.rpartition` and
`int()`.  Strings are embedded as lists of characters.  `str.strip()` and
`int()` also accept some exotic Unicode whitespace and digits that cannot
occur in collapsed-stack data; the embedding covers the ASCII set plus the
Unicode line separators recognised by `splitlines`. -/

abbrev PyStr := List Char

def isPySpace (c : Char) : Bool :=
  c = ' ' || c = '\t' || c = '\n' || c = '\r' || c = '\x0b' || c = '\x0c'

/-- `str.strip()`: drop leading and trailing whitespace. -/
def pyStrip (s : PyStr) : PyStr :=
  ((s.dropWhile isPySpace).reverse.dropWhile isPySpace).reverse

def isPyLineBreak (c : Char) : Bool :=
  c = '\n' || c = '\r' || c = '\x0b' || c = '\x0c' ||
  c = '\x1c' || c = '\x1d' || c = '\x1e' || c = Char.ofNat 0x85 ||
  c = Char.ofNat 0x2028 || c = Char.ofNat 0x2029

/-- Worker for `str.splitlines`: every line-break character terminates a
line, `"\r\n"` counts as a single break (the `afterCR` flag records that the
previous character was a `'\r'` whose break was already emitted, so an
immediately following `'\n'` is swallowed), and a final unterminated segment
is a line only when nonempty. -/
def pySplitlinesGo : PyStr → PyStr → Bool → List PyStr
  | [], cur, _ => if cur = [] then [] else [cur.reverse]
  | c :: rest, cur, afterCR =>
    if afterCR && c = '\n' then
      pySplitlinesGo rest cur false
    else if c = '\r' then
      cur.reverse :: pySplitlinesGo rest [] true
    else if isPyLineBreak c then
      cur.reverse :: pySplitlinesGo rest [] false
    else
      pySplitlinesGo rest (c :: cur) false

def pySplitlines (s : PyStr) : List PyStr := pySplitlinesGo s [] false

def splitAtFirst (c : Char) : PyStr → Option (PyStr × PyStr)
  | [] => none
  | x :: rest =>
    if x = c then some ([], rest)
    else (splitAtFirst c rest).map (fun p => (x :: p.1, p.2))

/-- `line.rpartition(" ")` restricted to the two components the parser uses:
`(stack, count_str)`; when no space occurs Python returns `("", "", line)`,
that is, an empty stack with `count_str = line`. -/
def pyRPartitionSpace (s : PyStr) : PyStr × PyStr :=
  match splitAtFirst ' ' s.reverse with
  | none => ([], s)
  | some (revAfter, revBefore) => (revBefore.reverse, revAfter.reverse)

def charsToNat (ds : PyStr) : Nat :=
  ds.foldl (fun acc c => acc * 10 + (c.toNat - '0'.toNat)) 0

/-- After a leading digit: digits with single underscores allowed between
digits (Python 3 integer literals as accepted by `int()`). -/
def digitsUA : PyStr → Bool
  | [] => true
  | c :: rest =>
    if c = '_' then
      match rest with
      | [] => false
      | d :: rest' => d.isDigit && digitsUA rest'
    else
      c.isDigit && digitsUA rest

def digitsWithUnderscores (s : PyStr) : Bool :=
  match s with
  | [] => false
  | c :: rest => c.isDigit && digitsUA rest

/-- Python `int(s)`: strips surrounding whitespace, accepts an optional
sign, then decimal digits with underscore separators; `none` models the
`ValueError`. -/
def pyInt (s : PyStr) : Option Int :=
  match pyStrip s with
  | [] => none
  | c :: rest =>
    if c = '+' then
      if digitsWithUnderscores rest then
        some ((charsToNat (rest.filter (· ≠ '_')) : Int))
      else none
    else if c = '-' then
      if digitsWithUnderscores rest then
        some (-(charsToNat (rest.filter (· ≠ '_')) : Int))
      else none
    else
      if digitsWithUnderscores (c :: rest) then
        some ((charsToNat ((c :: rest).filter (· ≠ '_')) : Int))
      else none

/-! ## Collapsed-stack parser (`gprofiler/utils/collapsed_format.py`) -/

inductive BadLine where
  | missingStackOrCount (line : PyStr)
  | invalidCountFormat (line : PyStr)
  | negativeCount (line : PyStr)
deriving DecidableEq, Repr

structure CollapsedParseState where
  stacks_map : List (PyStr × Int)  -- the `stacks` Counter of the source (field renamed: `stacks` is a reserved token here)
  bad_lines : List BadLine
  total_lines : Nat
  parsed_lines : Nat
deriving DecidableEq, Repr

def CollapsedParseState.init : CollapsedParseState := ⟨[], [], 0, 0⟩

/-- One iteration of the `for line in collapsed.splitlines()` loop of
`parse_one_collapsed`.  The `try` body can only raise `ValueError` (from
`int()`), recorded as an `invalidCountFormat` bad line; the other two
`bad_lines.append` sites are the explicit validations. -/
def parse_collapsed_line (add_comm : Option PyStr) (st : CollapsedParseState)
    (rawLine : PyStr) : CollapsedParseState :=
  let total := st.total_lines + 1
  let line := pyStrip rawLine
  if line = [] then { st with total_lines := total }
  else if line.head? = some '#' then { st with total_lines := total }
  else
    let stack := (pyRPartitionSpace line).1
    let count_str := (pyRPartitionSpace line).2
    if stack = [] || count_str = [] then
      { st with
        total_lines := total
        bad_lines := st.bad_lines ++ [.missingStackOrCount line] }
    else
      match pyInt count_str with
      | none =>
        { st with
          total_lines := total
          bad_lines := st.bad_lines ++ [.invalidCountFormat line] }
      | some count =>
        if count < 0 then
          { st with
            total_lines := total
            bad_lines := st.bad_lines ++ [.negativeCount line] }
        else
          { st with
            total_lines := total
            parsed_lines := st.parsed_lines + 1
            stacks_map := counterAdd st.stacks_map
              (match add_comm with
               | some comm => comm ++ ';' :: stack
               | none => stack) count }

/-- `parse_one_collapsed`, with its statistics and the corruption warning
(`bad_count > total_lines * 0.5`; `x * 0.5` is exact in binary floating
point, so the comparison is `2 * bad_count > total_lines` over ℕ). -/
def parse_one_collapsed_full (collapsed : PyStr) (add_comm : Option PyStr) :
    CollapsedParseState × Bool :=
  let st := (pySplitlines collapsed).foldl (parse_collapsed_line add_comm)
    CollapsedParseState.init
  (st, decide (2 * st.bad_lines.length > st.total_lines))

def parse_one_collapsed (collapsed : PyStr) (add_comm : Option PyStr) :
    List (PyStr × Int) :=
  (parse_one_collapsed_full collapsed add_comm).1.stacks_map

/-- Pointwise classification of one raw line, mirroring the branch taken by
`parse_collapsed_line`. -/
inductive LineClass where
  | blank
  | comment
  | sample (stack : PyStr) (count : Int)
  | bad
deriving DecidableEq, Repr

def classifyLine (rawLine : PyStr) : LineClass :=
  let line := pyStrip rawLine
  if line = [] then .blank
  else if line.head? = some '#' then .comment
  else
    if (pyRPartitionSpace line).1 = [] || (pyRPartitionSpace line).2 = [] then .bad
    else
      match pyInt (pyRPartitionSpace line).2 with
      | none => .bad
      | some count =>
        if count < 0 then .bad else .sample (pyRPartitionSpace line).1 count

def lineClassIsSample : LineClass → Bool
  | .sample _ _ => true
  | _ => false

def sampleKey (add_comm : Option PyStr) (stack : PyStr) : PyStr :=
  match add_comm with
  | some comm => comm ++ ';' :: stack
  | none => stack

def buildStep (add_comm : Option PyStr) (m : List (PyStr × Int)) (l : PyStr) :
    List (PyStr × Int) :=
  match classifyLine l with
  | .sample stack count => counterAdd m (sampleKey add_comm stack) count
  | _ => m

/-- Map built from exactly the well-formed sample lines, in order. -/
def buildStacks (add_comm : Option PyStr) (lines : List PyStr) : List (PyStr × Int) :=
  lines.foldl (buildStep add_comm) []

/-- The count a line contributes: its parsed count for well-formed sample
lines, zero otherwise. -/
def lineCount (l : PyStr) : Int :=
  match classifyLine l with
  | .sample _ count => count
  | _ => 0

theorem parse_line_split (ac : Option PyStr) (st : CollapsedParseState) (l : PyStr) :
    (classifyLine l = .blank ∧
      parse_collapsed_line ac st l = { st with total_lines := st.total_lines + 1 }) ∨
    (classifyLine l = .comment ∧
      parse_collapsed_line ac st l = { st with total_lines := st.total_lines + 1 }) ∨
    (∃ b, classifyLine l = .bad ∧
      parse_collapsed_line ac st l =
        { st with
          total_lines := st.total_lines + 1
          bad_lines := st.bad_lines ++ [b] }) ∨
    (∃ stack count, classifyLine l = .sample stack count ∧
      parse_collapsed_line ac st l =
        { st with
          total_lines := st.total_lines + 1
          parsed_lines := st.parsed_lines + 1
          stacks_map := counterAdd st.stacks_map (sampleKey ac stack) count }) := by
  by_cases h1 : pyStrip l = []
  · exact Or.inl ⟨by simp [classifyLine, h1], by simp [parse_collapsed_line, h1]⟩
  by_cases h2 : (pyStrip l).head? = some '#'
  · exact Or.inr (Or.inl
      ⟨by simp [classifyLine, h1, h2], by simp [parse_collapsed_line, h1, h2]⟩)
  by_cases hA : (pyRPartitionSpace (pyStrip l)).1 = []
  · exact Or.inr (Or.inr (Or.inl ⟨.missingStackOrCount (pyStrip l),
      by simp [classifyLine, h1, h2, hA],
      by simp [parse_collapsed_line, h1, h2, hA]⟩))
  by_cases hB : (pyRPartitionSpace (pyStrip l)).2 = []
  · exact Or.inr (Or.inr (Or.inl ⟨.missingStackOrCount (pyStrip l),
      by simp [classifyLine, h1, h2, hA, hB],
      by simp [parse_collapsed_line, h1, h2, hA, hB]⟩))
  match hpy : pyInt (pyRPartitionSpace (pyStrip l)).2 with
  | none =>
    exact Or.inr (Or.inr (Or.inl ⟨.invalidCountFormat (pyStrip l),
      by simp [classifyLine, h1, h2, hA, hB, hpy],
      by simp [parse_collapsed_line, h1, h2, hA, hB, hpy]⟩))
  | some count =>
    by_cases hneg : count < 0
    · exact Or.inr (Or.inr (Or.inl ⟨.negativeCount (pyStrip l),
        by simp [classifyLine, h1, h2, hA, hB, hpy, hneg],
        by simp [parse_collapsed_line, h1, h2, hA, hB, hpy, hneg]⟩))
    · exact Or.inr (Or.inr (Or.inr ⟨(pyRPartitionSpace (pyStrip l)).1, count,
        by simp [classifyLine, h1, h2, hA, hB, hpy, hneg],
        by simp [parse_collapsed_line, h1, h2, hA, hB, hpy, hneg, sampleKey]⟩))

theorem parse_loop_char (ac : Option PyStr) (lines : List PyStr) :
    ∀ (st : CollapsedParseState),
      (lines.foldl (parse_collapsed_line ac) st).total_lines =
        st.total_lines + lines.length ∧
      (lines.foldl (parse_collapsed_line ac) st).bad_lines.length =
        st.bad_lines.length +
          (lines.filter (fun l => classifyLine l = LineClass.bad)).length ∧
      (lines.foldl (parse_collapsed_line ac) st).parsed_lines =
        st.parsed_lines +
          (lines.filter (fun l => lineClassIsSample (classifyLine l))).length ∧
      (lines.foldl (parse_collapsed_line ac) st).stacks_map =
        lines.foldl (buildStep ac) st.stacks_map := by
  induction lines with
  | nil => intro st; simp
  | cons l rest ih =>
    intro st
    rcases parse_line_split ac st l with ⟨hc, hstep⟩ | ⟨hc, hstep⟩ |
      ⟨b, hc, hstep⟩ | ⟨stack, count, hc, hstep⟩ <;>
    · rw [List.foldl_cons, hstep]
      obtain ⟨ih1, ih2, ih3, ih4⟩ := ih _
      refine ⟨?_, ?_, ?_, ?_⟩
      · rw [ih1]; simp <;> omega
      · rw [ih2]; simp [List.filter_cons, hc, lineClassIsSample] <;> omega
      · rw [ih3]; simp [List.filter_cons, hc, lineClassIsSample] <;> omega
      · rw [ih4, List.foldl_cons]; simp [buildStep, hc]

/-- Claim C9: `parse_one_collapsed` is total: every line is counted, each
malformed line (missing stack or count, invalid count format, negative
count) is recorded as a bad line and skipped while the remaining lines are
still parsed (the returned map is exactly the map built from the
well-formed lines), and the corruption warning fires precisely when bad
lines exceed half of all lines — the successfully parsed stacks are
returned either way. -/
theorem parse_one_collapsed_never_raises (collapsed : PyStr) (add_comm : Option PyStr) :
    (parse_one_collapsed_full collapsed add_comm).1.total_lines =
      (pySplitlines collapsed).length ∧
    (parse_one_collapsed_full collapsed add_comm).1.bad_lines.length =
      ((pySplitlines collapsed).filter (fun l => classifyLine l = LineClass.bad)).length ∧
    (parse_one_collapsed_full collapsed add_comm).1.parsed_lines =
      ((pySplitlines collapsed).filter (fun l => lineClassIsSample (classifyLine l))).length ∧
    (parse_one_collapsed_full collapsed add_comm).1.stacks_map =
      buildStacks add_comm (pySplitlines collapsed) ∧
    ((parse_one_collapsed_full collapsed add_comm).2 = true ↔
      2 * ((pySplitlines collapsed).filter (fun l => classifyLine l = LineClass.bad)).length >
        (pySplitlines collapsed).length) := by
  obtain ⟨h1, h2, h3, h4⟩ :=
    parse_loop_char add_comm (pySplitlines collapsed) CollapsedParseState.init
  simp only [CollapsedParseState.init, List.length_nil, Nat.zero_add] at h1 h2 h3 h4
  refine ⟨?_, ?_, ?_, ?_, ?_⟩ <;>
    simp only [parse_one_collapsed_full, CollapsedParseState.init, buildStacks]
  · exact h1
  · exact h2
  · exact h3
  · exact h4
  · simp only [decide_eq_true_eq]
    rw [h1, h2]

/-! ### Support lemmas for the collapsed-format claims -/

theorem dropWhile_head_false {α : Type} (p : α → Bool) :
    ∀ (l : List α) (c : α) (t : List α), l.dropWhile p = c :: t → p c = false := by
  intro l
  induction l with
  | nil => intro c t h; simp [List.dropWhile] at h
  | cons a l' ih =>
    intro c t h
    rw [List.dropWhile_cons] at h
    by_cases hp : p a
    · rw [if_pos hp] at h; exact ih c t h
    · rw [if_neg hp] at h
      cases h
      simpa using hp

theorem dropWhile_eq_self_of_head_false {α : Type} (p : α → Bool) (l : List α)
    (h : ∀ c, l.head? = some c → p c = false) : l.dropWhile p = l := by
  cases l with
  | nil => rfl
  | cons a l' => simp [List.dropWhile_cons, h a rfl]

theorem pyStrip_eq_self (s : PyStr)
    (h1 : ∀ c, s.head? = some c → isPySpace c = false)
    (h2 : ∀ c, s.reverse.head? = some c → isPySpace c = false) : pyStrip s = s := by
  unfold pyStrip
  rw [dropWhile_eq_self_of_head_false _ _ h1, dropWhile_eq_self_of_head_false _ _ h2,
    List.reverse_reverse]

theorem pyStrip_prefix_dropWhile (s : PyStr) : pyStrip s <+: s.dropWhile isPySpace :=
  List.rdropWhile_prefix isPySpace (s.dropWhile isPySpace)

theorem pyStrip_subset (s : PyStr) : ∀ c ∈ pyStrip s, c ∈ s := fun c hc =>
  (List.dropWhile_sublist isPySpace).subset
    ((pyStrip_prefix_dropWhile s).sublist.subset hc)

theorem pyStrip_head_not_space (s : PyStr) (c : Char) (t : PyStr)
    (h : pyStrip s = c :: t) : isPySpace c = false := by
  obtain ⟨u, hu⟩ := pyStrip_prefix_dropWhile s
  rw [h] at hu
  exact dropWhile_head_false isPySpace _ c (t ++ u) (by rw [← hu]; simp)

theorem splitAtFirst_eq_some (c : Char) :
    ∀ (s p q : PyStr), splitAtFirst c s = some (p, q) → s = p ++ c :: q ∧ c ∉ p := by
  intro s
  induction s with
  | nil => intro p q h; simp [splitAtFirst] at h
  | cons x rest ih =>
    intro p q h
    by_cases hx : x = c
    · simp [splitAtFirst, hx] at h
      obtain ⟨hp, hq⟩ := h
      subst hp; subst hq; subst hx
      simp
    · simp only [splitAtFirst, if_neg hx] at h
      match hrec : splitAtFirst c rest with
      | none => rw [hrec] at h; simp at h
      | some (p', q') =>
        rw [hrec] at h
        simp at h
        obtain ⟨hp, hq⟩ := h
        obtain ⟨hs, hnot⟩ := ih p' q' hrec
        subst hp; subst hq
        constructor
        · rw [hs]; rfl
        · intro hmem
          rcases List.mem_cons.mp hmem with hmem | hmem
          · exact hx hmem.symm
          · exact hnot hmem

theorem splitAtFirst_append (c : Char) :
    ∀ (a b : PyStr), c ∉ a → splitAtFirst c (a ++ c :: b) = some (a, b) := by
  intro a
  induction a with
  | nil => intro b _; simp [splitAtFirst]
  | cons x rest ih =>
    intro b hnot
    have hx : ¬(x = c) := fun h => hnot (by simp [h])
    simp only [List.cons_append, splitAtFirst, if_neg hx, List.append_eq]
    rw [ih b (fun h => hnot (by simp [h]))]
    rfl

theorem pyRPartitionSpace_eq (s stack cnt : PyStr)
    (h : pyRPartitionSpace s = (stack, cnt)) (hne : stack ≠ []) :
    s = stack ++ ' ' :: cnt ∧ ' ' ∉ cnt := by
  unfold pyRPartitionSpace at h
  match hsp : splitAtFirst ' ' s.reverse with
  | none => rw [hsp] at h; simp at h; exact absurd h.1 hne
  | some (ra, rb) =>
    rw [hsp] at h
    simp at h
    obtain ⟨hstack, hcnt⟩ := h
    obtain ⟨hs, hnot⟩ := splitAtFirst_eq_some ' ' s.reverse ra rb hsp
    have : s = rb.reverse ++ ' ' :: ra.reverse := by
      have := congrArg List.reverse hs
      simpa [List.reverse_append] using this
    subst hstack; subst hcnt
    exact ⟨this, fun hmem => hnot (by simpa using hmem)⟩

theorem pyRPartitionSpace_of_append (stack cnt : PyStr) (h : ' ' ∉ cnt) :
    pyRPartitionSpace (stack ++ ' ' :: cnt) = (stack, cnt) := by
  unfold pyRPartitionSpace
  have hrev : (stack ++ ' ' :: cnt).reverse = cnt.reverse ++ ' ' :: stack.reverse := by
    simp [List.reverse_append]
  rw [hrev, splitAtFirst_append ' ' cnt.reverse stack.reverse (by simpa using h)]
  simp

def decimalDigitChars : List Char := ['0', '1', '2', '3', '4', '5', '6', '7', '8', '9']

def digitChar (d : Nat) : Char := Char.ofNat (48 + d)

theorem digitChar_mem (d : Nat) (hd : d < 10) : digitChar d ∈ decimalDigitChars := by
  interval_cases d <;> decide

theorem digit_char_props (c : Char) (h : c ∈ decimalDigitChars) :
    c.isDigit = true ∧ isPySpace c = false ∧ isPyLineBreak c = false ∧
    ¬(c = '_') ∧ ¬(c = '+') ∧ ¬(c = '-') ∧ ¬(c = '#') ∧ ¬(c = ' ') := by
  fin_cases h <;> refine ⟨by decide, by decide, by decide, by decide, by decide,
    by decide, by decide, by decide⟩

theorem digitChar_toNat (d : Nat) (hd : d < 10) :
    (digitChar d).toNat - '0'.toNat = d := by
  interval_cases d <;> decide

def natToChars (n : Nat) : PyStr :=
  if n = 0 then ['0'] else ((Nat.digits 10 n).map digitChar).reverse

theorem natToChars_ne_nil (n : Nat) : natToChars n ≠ [] := by
  unfold natToChars
  by_cases h : n = 0
  · simp [h]
  · simp [h, Nat.digits_ne_nil_iff_ne_zero.mpr h]

theorem mem_natToChars (n : Nat) (c : Char) (h : c ∈ natToChars n) :
    c ∈ decimalDigitChars := by
  unfold natToChars at h
  by_cases hn : n = 0
  · simp [hn] at h
    subst h; decide
  · simp [hn] at h
    obtain ⟨d, hd, rfl⟩ := h
    exact digitChar_mem d (Nat.digits_lt_base (by norm_num) hd)

theorem charsToNat_digits_foldl (L : List Nat) (hL : ∀ d ∈ L, d < 10) :
    ∀ acc : Nat,
      ((L.map digitChar).reverse).foldl (fun a c => a * 10 + (c.toNat - '0'.toNat)) acc =
        acc * 10 ^ L.length + Nat.ofDigits 10 L := by
  induction L with
  | nil => intro acc; simp [Nat.ofDigits]
  | cons d L' ih =>
    intro acc
    have hd : d < 10 := hL d (by simp)
    have hL' : ∀ e ∈ L', e < 10 := fun e he => hL e (by simp [he])
    simp only [List.map_cons, List.reverse_cons, List.foldl_append, List.foldl_cons,
      List.foldl_nil, ih hL', digitChar_toNat d hd, Nat.ofDigits_cons, List.length_cons]
    ring

theorem charsToNat_natToChars (n : Nat) : charsToNat (natToChars n) = n := by
  unfold charsToNat natToChars
  by_cases hn : n = 0
  · simp [hn]
  · rw [if_neg hn,
      charsToNat_digits_foldl (Nat.digits 10 n)
        (fun d hd => Nat.digits_lt_base (by norm_num) hd) 0]
    simp [Nat.ofDigits_digits]

theorem digitsUA_of_digits :
    ∀ (l : PyStr), (∀ c ∈ l, c.isDigit = true) → digitsUA l = true := by
  intro l
  induction l with
  | nil => intro _; rfl
  | cons c rest ih =>
    intro h
    have hc : c.isDigit = true := h c (by simp)
    have hne : ¬(c = '_') := by
      intro e; subst e; exact absurd hc (by decide)
    unfold digitsUA
    rw [if_neg hne, hc, ih (fun x hx => h x (by simp [hx]))]
    rfl

theorem digitsWithUnderscores_of_digits (l : PyStr) (hne : l ≠ [])
    (h : ∀ c ∈ l, c.isDigit = true) : digitsWithUnderscores l = true := by
  cases l with
  | nil => exact absurd rfl hne
  | cons c rest =>
    simp [digitsWithUnderscores, h c (by simp),
      digitsUA_of_digits rest (fun x hx => h x (by simp [hx]))]

theorem pyInt_digit_chars (l : PyStr) (hne : l ≠ [])
    (hd : ∀ c ∈ l, c ∈ decimalDigitChars) :
    pyInt l = some ((charsToNat l : Nat) : Int) := by
  have hdig : ∀ c ∈ l, c.isDigit = true := fun c hc => (digit_char_props c (hd c hc)).1
  have hstrip : pyStrip l = l :=
    pyStrip_eq_self l
      (fun c hc => (digit_char_props c (hd c (by
        cases l with
        | nil => simp at hc
        | cons a t => simp at hc; simp [hc]))).2.1)
      (fun c hc => (digit_char_props c (hd c (by
        have : c ∈ l.reverse := by
          cases hrev : l.reverse with
          | nil => rw [hrev] at hc; simp at hc
          | cons a t => rw [hrev] at hc; simp at hc; simp [hrev, hc]
        simpa using this))).2.1)
  cases l with
  | nil => exact absurd rfl hne
  | cons c rest =>
    have hc := digit_char_props c (hd c (by simp))
    have hfil : (c :: rest).filter (· ≠ '_') = c :: rest := by
      rw [List.filter_eq_self]
      intro a ha
      exact decide_eq_true (digit_char_props a (hd a ha)).2.2.2.1
    simp only [pyInt, hstrip, if_neg hc.2.2.2.2.1, if_neg hc.2.2.2.2.2.1,
      digitsWithUnderscores_of_digits (c :: rest) (by simp) hdig, if_pos trivial, hfil]

theorem pySplitlinesGo_nil (cur : PyStr) (b : Bool) :
    pySplitlinesGo [] cur b = if cur = [] then [] else [cur.reverse] := rfl

theorem pySplitlinesGo_cons (c : Char) (rest cur : PyStr) (b : Bool) :
    pySplitlinesGo (c :: rest) cur b =
      if b && c = '\n' then pySplitlinesGo rest cur false
      else if c = '\r' then cur.reverse :: pySplitlinesGo rest [] true
      else if isPyLineBreak c then cur.reverse :: pySplitlinesGo rest [] false
      else pySplitlinesGo rest (c :: cur) false := rfl

theorem pySplitlinesGo_cons_nonbreak (c : Char) (rest cur : PyStr) (b : Bool)
    (hc : isPyLineBreak c = false) :
    pySplitlinesGo (c :: rest) cur b = pySplitlinesGo rest (c :: cur) false := by
  have hn : ¬(c = '\n') := by intro e; subst e; exact absurd hc (by decide)
  have hr : ¬(c = '\r') := by intro e; subst e; exact absurd hc (by decide)
  rw [pySplitlinesGo_cons, if_neg (by simp [hn]), if_neg hr, if_neg (by simp [hc])]

theorem pySplitlinesGo_cons_newline (rest cur : PyStr) :
    pySplitlinesGo ('\n' :: rest) cur false =
      cur.reverse :: pySplitlinesGo rest [] false := by
  rw [pySplitlinesGo_cons, if_neg (by simp), if_neg (by decide), if_pos (by decide)]

theorem pySplitlinesGo_append (l : PyStr) :
    ∀ (cur s : PyStr), (∀ c ∈ l, isPyLineBreak c = false) →
      pySplitlinesGo (l ++ s) cur false = pySplitlinesGo s (l.reverse ++ cur) false := by
  induction l with
  | nil => intro cur s _; simp
  | cons c l' ih =>
    intro cur s h
    rw [List.cons_append, pySplitlinesGo_cons_nonbreak c _ _ _ (h c (by simp)),
      ih (c :: cur) s (fun x hx => h x (by simp [hx]))]
    simp

def joinLines : List PyStr → PyStr
  | [] => []
  | [l] => l
  | l :: rest => l ++ '\n' :: joinLines rest

theorem pySplitlines_joinLines (lines : List PyStr)
    (h : ∀ l ∈ lines, l ≠ [] ∧ ∀ c ∈ l, isPyLineBreak c = false) :
    pySplitlines (joinLines lines) = lines := by
  induction lines with
  | nil => simp [pySplitlines, joinLines, pySplitlinesGo_nil]
  | cons l rest ih =>
    obtain ⟨hne, hbf⟩ := h l (by simp)
    cases rest with
    | nil =>
      show pySplitlinesGo (joinLines [l]) [] false = [l]
      have hj : joinLines [l] = l := rfl
      rw [hj, ← List.append_nil l, pySplitlinesGo_append l [] [] hbf,
        pySplitlinesGo_nil]
      simp [hne]
    | cons l₂ rest' =>
      have hj : joinLines (l :: l₂ :: rest') = l ++ '\n' :: joinLines (l₂ :: rest') := rfl
      show pySplitlinesGo (joinLines (l :: l₂ :: rest')) [] false = l :: l₂ :: rest'
      rw [hj, pySplitlinesGo_append l [] _ hbf, pySplitlinesGo_cons_newline]
      simp only [List.append_nil, List.reverse_reverse]
      rw [show pySplitlinesGo (joinLines (l₂ :: rest')) [] false =
          pySplitlines (joinLines (l₂ :: rest')) from rfl,
        ih (fun x hx => h x (by simp [hx]))]

theorem pySplitlinesGo_no_break (s : PyStr) :
    ∀ (cur : PyStr) (b : Bool), (∀ c ∈ cur, isPyLineBreak c = false) →
      ∀ l ∈ pySplitlinesGo s cur b, ∀ c ∈ l, isPyLineBreak c = false := by
  induction s with
  | nil =>
    intro cur b hcur l hl c hc
    rw [pySplitlinesGo_nil] at hl
    by_cases h : cur = []
    · simp [h] at hl
    · rw [if_neg h] at hl
      simp at hl
      subst hl
      exact hcur c (by simpa using hc)
  | cons c0 rest ih =>
    intro cur b hcur l hl c hc
    rw [pySplitlinesGo_cons] at hl
    by_cases h1 : (b && c0 = '\n') = true
    · rw [if_pos h1] at hl
      exact ih cur false hcur l hl c hc
    · rw [if_neg h1] at hl
      by_cases h2 : c0 = '\r'
      · rw [if_pos h2] at hl
        rcases List.mem_cons.mp hl with hl | hl
        · subst hl; exact hcur c (by simpa using hc)
        · exact ih [] true (by simp) l hl c hc
      · rw [if_neg h2] at hl
        by_cases h3 : isPyLineBreak c0 = true
        · rw [if_pos h3] at hl
          rcases List.mem_cons.mp hl with hl | hl
          · subst hl; exact hcur c (by simpa using hc)
          · exact ih [] false (by simp) l hl c hc
        · rw [if_neg h3] at hl
          refine ih (c0 :: cur) false ?_ l hl c hc
          intro x hx
          rcases List.mem_cons.mp hx with hx | hx
          · subst hx; simpa using h3
          · exact hcur x hx

theorem pySplitlines_no_break (s : PyStr) :
    ∀ l ∈ pySplitlines s, ∀ c ∈ l, isPyLineBreak c = false :=
  pySplitlinesGo_no_break s [] false (by simp)

def counterKeys {α : Type} (m : List (α × Int)) : List α := m.map (·.1)

theorem counterAdd_keys {α : Type} [DecidableEq α] (m : List (α × Int)) (k : α) (v : Int) :
    counterKeys (counterAdd m k v) =
      if k ∈ counterKeys m then counterKeys m else counterKeys m ++ [k] := by
  induction m with
  | nil => simp [counterAdd, counterKeys]
  | cons p rest ih =>
    obtain ⟨k', v'⟩ := p
    by_cases hk : k' = k
    · subst hk
      simp [counterAdd, counterKeys]
    · have hne : ¬(k = k') := fun e => hk e.symm
      simp only [counterAdd, if_neg hk, counterKeys, List.map_cons] at ih ⊢
      rw [ih]
      by_cases hmem : k ∈ List.map (·.1) rest
      · simp [hmem, hne]
      · simp [hmem, hne]

theorem counterAdd_nodup {α : Type} [DecidableEq α] (m : List (α × Int)) (k : α) (v : Int)
    (h : (counterKeys m).Nodup) : (counterKeys (counterAdd m k v)).Nodup := by
  rw [counterAdd_keys]
  by_cases hmem : k ∈ counterKeys m
  · simpa [hmem] using h
  · simp [hmem, List.nodup_append, h]

theorem counterAdd_of_not_mem {α : Type} [DecidableEq α] (m : List (α × Int)) (k : α)
    (v : Int) (h : k ∉ counterKeys m) : counterAdd m k v = m ++ [(k, v)] := by
  induction m with
  | nil => rfl
  | cons p rest ih =>
    obtain ⟨k', v'⟩ := p
    have hk : ¬(k' = k) := by
      intro e; subst e; exact h (by simp [counterKeys])
    simp only [counterAdd, if_neg hk, List.cons_append, List.cons.injEq, true_and]
    exact ih (fun hmem => h (by simp [counterKeys] at hmem ⊢; exact Or.inr hmem))

/-- The shape every key inserted by `parse_one_collapsed` has: nonempty, its
head is neither whitespace nor `#`, and it contains no line-break character
(so a re-emitted line re-parses to the same key). -/
def goodKey (k : PyStr) : Prop :=
  k ≠ [] ∧ (∀ c, k.head? = some c → isPySpace c = false ∧ ¬(c = '#')) ∧
    ∀ c ∈ k, isPyLineBreak c = false

theorem counterAdd_good (m : List (PyStr × Int)) (k : PyStr) (v : Int)
    (hm : ∀ p ∈ m, goodKey p.1 ∧ 0 ≤ p.2) (hk : goodKey k) (hv : 0 ≤ v) :
    ∀ p ∈ counterAdd m k v, goodKey p.1 ∧ 0 ≤ p.2 := by
  induction m with
  | nil =>
    intro p hp
    simp [counterAdd] at hp
    subst hp
    exact ⟨hk, hv⟩
  | cons q rest ih =>
    obtain ⟨k', v'⟩ := q
    intro p hp
    by_cases hkk : k' = k
    · subst hkk
      simp only [counterAdd, if_pos rfl] at hp
      rcases List.mem_cons.mp hp with hp | hp
      · subst hp
        have := hm (k', v') (by simp)
        exact ⟨this.1, add_nonneg this.2 hv⟩
      · exact hm p (by simp [hp])
    · simp only [counterAdd, if_neg hkk] at hp
      rcases List.mem_cons.mp hp with hp | hp
      · subst hp; exact hm (k', v') (by simp)
      · exact ih (fun q hq => hm q (by simp [hq])) p hp

theorem classify_sample_inv (raw stack : PyStr) (count : Int)
    (h : classifyLine raw = .sample stack count) :
    pyStrip raw ≠ [] ∧ ¬((pyStrip raw).head? = some '#') ∧
    (pyRPartitionSpace (pyStrip raw)).1 = stack ∧ ¬(stack = []) ∧
    ¬((pyRPartitionSpace (pyStrip raw)).2 = []) ∧
    pyInt (pyRPartitionSpace (pyStrip raw)).2 = some count ∧ 0 ≤ count := by
  by_cases h1 : pyStrip raw = []
  · simp [classifyLine, h1] at h
  by_cases h2 : (pyStrip raw).head? = some '#'
  · simp [classifyLine, h1, h2] at h
  by_cases hA : (pyRPartitionSpace (pyStrip raw)).1 = []
  · simp [classifyLine, h1, h2, hA] at h
  by_cases hB : (pyRPartitionSpace (pyStrip raw)).2 = []
  · simp [classifyLine, h1, h2, hA, hB] at h
  match hpy : pyInt (pyRPartitionSpace (pyStrip raw)).2 with
  | none => simp [classifyLine, h1, h2, hA, hB, hpy] at h
  | some c0 =>
    by_cases hneg : c0 < 0
    · simp [classifyLine, h1, h2, hA, hB, hpy, hneg] at h
    · simp [classifyLine, h1, h2, hA, hB, hpy, hneg] at h
      obtain ⟨hs, hc⟩ := h
      have hs' : (pyRPartitionSpace (pyStrip raw)).1 = stack := by
        first
        | exact hs
        | exact hs.symm
      have hc' : c0 = count := by
        first
        | exact hc
        | exact hc.symm
      refine ⟨h1, h2, hs', by rw [← hs']; exact hA, hB, ?_, by omega⟩
      exact congrArg some hc'

theorem classify_sample_goodKey (raw : PyStr)
    (hbf : ∀ c ∈ raw, isPyLineBreak c = false)
    (stack : PyStr) (count : Int) (h : classifyLine raw = .sample stack count) :
    goodKey stack ∧ 0 ≤ count := by
  obtain ⟨h1, h2, hst, hne, hB, hpy, hpos⟩ := classify_sample_inv raw stack count h
  have heq : pyRPartitionSpace (pyStrip raw) =
      (stack, (pyRPartitionSpace (pyStrip raw)).2) := by
    rw [← hst]
  obtain ⟨happ, _⟩ := pyRPartitionSpace_eq (pyStrip raw) stack
    (pyRPartitionSpace (pyStrip raw)).2 heq hne
  refine ⟨⟨hne, ?_, ?_⟩, hpos⟩
  · intro c hc
    obtain ⟨sc, st', rfl⟩ := List.exists_cons_of_ne_nil hne
    simp only [List.head?_cons, Option.some.injEq] at hc
    subst hc
    have hhead := happ
    rw [List.cons_append] at hhead
    constructor
    · exact pyStrip_head_not_space raw sc _ hhead
    · intro e
      subst e
      exact h2 (by rw [hhead]; rfl)
  · intro c hc
    have hline : c ∈ pyStrip raw := by
      rw [happ]
      exact List.mem_append.mpr (Or.inl hc)
    exact hbf c (pyStrip_subset raw c hline)

theorem classify_emitted (k : PyStr) (v : Int) (hk : goodKey k) (hv : 0 ≤ v) :
    classifyLine (k ++ ' ' :: natToChars v.toNat) = .sample k v := by
  obtain ⟨hne, hhead, hbf⟩ := hk
  have hDne : natToChars v.toNat ≠ [] := natToChars_ne_nil _
  have hDdig : ∀ c ∈ natToChars v.toNat, c ∈ decimalDigitChars :=
    fun c hc => mem_natToChars _ c hc
  have hstrip : pyStrip (k ++ ' ' :: natToChars v.toNat) =
      k ++ ' ' :: natToChars v.toNat := by
    refine pyStrip_eq_self _ ?_ ?_
    · intro c hc
      obtain ⟨kc, kt, rfl⟩ := List.exists_cons_of_ne_nil hne
      simp at hc
      subst hc
      exact (hhead kc rfl).1
    · intro c hc
      have hrev : (k ++ ' ' :: natToChars v.toNat).reverse =
          (natToChars v.toNat).reverse ++ ' ' :: k.reverse := by
        simp
      rw [hrev] at hc
      obtain ⟨dc, dt, hD⟩ := List.exists_cons_of_ne_nil
        (show (natToChars v.toNat).reverse ≠ [] by simpa using hDne)
      rw [hD] at hc
      simp at hc
      subst hc
      have hcmem : dc ∈ natToChars v.toNat := by
        have : dc ∈ (natToChars v.toNat).reverse := by rw [hD]; simp
        simpa using this
      exact (digit_char_props dc (hDdig dc hcmem)).2.1
  have hrp : pyRPartitionSpace (k ++ ' ' :: natToChars v.toNat) =
      (k, natToChars v.toNat) :=
    pyRPartitionSpace_of_append k _ (fun hmem =>
      (digit_char_props ' ' (hDdig ' ' hmem)).2.2.2.2.2.2.2 rfl)
  have hint : pyInt (natToChars v.toNat) = some v := by
    rw [pyInt_digit_chars _ hDne hDdig, charsToNat_natToChars,
      Int.toNat_of_nonneg hv]
  have hne2 : ¬(k ++ ' ' :: natToChars v.toNat = []) := by
    simp
  have hhash : ¬((k ++ ' ' :: natToChars v.toNat).head? = some '#') := by
    match hkk : k with
    | [] => exact absurd rfl hne
    | kc :: kt =>
      intro hcontra
      simp at hcontra
      exact (hhead kc (by rfl)).2 hcontra
  simp only [classifyLine, hstrip, if_neg hne2, if_neg hhash, hrp, hint]
  rw [if_neg (by simp [hne, hDne])]
  rw [if_neg (by omega)]

theorem sumValues_counterAdd {α : Type} [DecidableEq α] (m : List (α × Int)) (k : α)
    (v : Int) : sumValues (counterAdd m k v) = sumValues m + v := by
  induction m with
  | nil => simp [counterAdd, sumValues]
  | cons p rest ih =>
    obtain ⟨k', v'⟩ := p
    by_cases hk : k' = k
    · subst hk
      simp [counterAdd, sumValues]
      ring
    · simp only [counterAdd, if_neg hk, sumValues, List.map_cons, List.sum_cons] at ih ⊢
      omega

theorem buildStacks_sum (ac : Option PyStr) (lines : List PyStr) :
    ∀ m0, sumValues (lines.foldl (buildStep ac) m0) =
      sumValues m0 + (lines.map lineCount).sum := by
  induction lines with
  | nil => intro m0; simp
  | cons l rest ih =>
    intro m0
    rw [List.foldl_cons, ih]
    cases hcl : classifyLine l <;>
      simp only [buildStep, lineCount, hcl, List.map_cons, List.sum_cons,
        sumValues_counterAdd] <;>
      omega

theorem foldl_counterAdd_entries (m : List (PyStr × Int)) :
    ∀ acc, (counterKeys (acc ++ m)).Nodup →
      m.foldl (fun a p => counterAdd a p.1 p.2) acc = acc ++ m := by
  induction m with
  | nil => intro acc _; simp
  | cons p rest ih =>
    intro acc hnodup
    obtain ⟨k, v⟩ := p
    have hsplit : (counterKeys acc ++ k :: counterKeys rest).Nodup := by
      simpa [counterKeys] using hnodup
    have hk : k ∉ counterKeys acc := by
      intro hmem
      have := (List.nodup_append.mp hsplit).2.2
      exact this hmem (by simp)
    rw [List.foldl_cons, counterAdd_of_not_mem acc k v hk,
      ih (acc ++ [(k, v)]) (by simpa [counterKeys] using hnodup)]
    simp

theorem buildStacks_good (lines : List PyStr)
    (hbf : ∀ l ∈ lines, ∀ c ∈ l, isPyLineBreak c = false) :
    ∀ m0, (∀ p ∈ m0, goodKey p.1 ∧ 0 ≤ p.2) → (counterKeys m0).Nodup →
      (∀ p ∈ lines.foldl (buildStep none) m0, goodKey p.1 ∧ 0 ≤ p.2) ∧
      (counterKeys (lines.foldl (buildStep none) m0)).Nodup := by
  induction lines with
  | nil => intro m0 h1 h2; exact ⟨by simpa using h1, by simpa using h2⟩
  | cons l rest ih =>
    intro m0 h1 h2
    rw [List.foldl_cons]
    have hstep : (∀ p ∈ buildStep none m0 l, goodKey p.1 ∧ 0 ≤ p.2) ∧
        (counterKeys (buildStep none m0 l)).Nodup := by
      cases hcl : classifyLine l with
      | sample stack count =>
        have hgk := classify_sample_goodKey l (hbf l (by simp)) stack count hcl
        constructor
        · simpa [buildStep, hcl, sampleKey] using
            counterAdd_good m0 stack count h1 hgk.1 hgk.2
        · simpa [buildStep, hcl, sampleKey] using counterAdd_nodup m0 stack count h2
      | blank => exact ⟨by simpa [buildStep, hcl] using h1, by simpa [buildStep, hcl] using h2⟩
      | comment => exact ⟨by simpa [buildStep, hcl] using h1, by simpa [buildStep, hcl] using h2⟩
      | bad => exact ⟨by simpa [buildStep, hcl] using h1, by simpa [buildStep, hcl] using h2⟩
    exact ih (fun l' hl' => hbf l' (by simp [hl'])) _ hstep.1 hstep.2

theorem parse_stacks_eq (collapsed : PyStr) (ac : Option PyStr) :
    parse_one_collapsed collapsed ac = buildStacks ac (pySplitlines collapsed) := by
  have h := (parse_loop_char ac (pySplitlines collapsed) CollapsedParseState.init).2.2.2
  simpa [parse_one_collapsed, parse_one_collapsed_full, buildStacks,
    CollapsedParseState.init] using h

def emitLine (p : PyStr × Int) : PyStr := p.1 ++ ' ' :: natToChars p.2.toNat

/-- Re-emit a parsed map as collapsed text: one `<stack> <count>` line per
entry. -/
def emitCollapsed (m : List (PyStr × Int)) : PyStr := joinLines (m.map emitLine)

theorem foldl_ext_mem {α β : Type} (f g : β → α → β) (l : List α)
    (h : ∀ b a, a ∈ l → f b a = g b a) : ∀ b, l.foldl f b = l.foldl g b := by
  induction l with
  | nil => intro b; rfl
  | cons a rest ih =>
    intro b
    rw [List.foldl_cons, List.foldl_cons, h b a (by simp)]
    exact ih (fun b' a' ha' => h b' a' (by simp [ha'])) _

theorem parse_emit (m : List (PyStr × Int))
    (hm : ∀ p ∈ m, goodKey p.1 ∧ 0 ≤ p.2) (hnodup : (counterKeys m).Nodup) :
    parse_one_collapsed (emitCollapsed m) none = m := by
  rw [parse_stacks_eq]
  have hlines : ∀ l ∈ m.map emitLine, l ≠ [] ∧ ∀ c ∈ l, isPyLineBreak c = false := by
    intro l hl
    obtain ⟨p, hp, rfl⟩ := List.mem_map.mp hl
    obtain ⟨⟨hne, hh, hbf⟩, hv⟩ := hm p hp
    constructor
    · simp [emitLine]
    · intro c hc
      simp only [emitLine, List.mem_append, List.mem_cons] at hc
      rcases hc with hc | hc | hc
      · exact hbf c hc
      · subst hc; decide
      · exact (digit_char_props c (mem_natToChars _ c hc)).2.2.1
  rw [show pySplitlines (emitCollapsed m) = m.map emitLine from by
      rw [emitCollapsed]; exact pySplitlines_joinLines _ hlines]
  unfold buildStacks
  rw [List.foldl_map]
  rw [foldl_ext_mem _ (fun a p => counterAdd a p.1 p.2) m
      (fun acc p hp => by
        obtain ⟨hgk, hv⟩ := hm p hp
        simp [buildStep, emitLine, classify_emitted p.1 p.2 hgk hv, sampleKey]) []]
  exact foldl_counterAdd_entries m [] (by simpa [counterKeys] using hnodup)

/-- Claim C8: on every valid collapsed input (each non-empty non-`#` line a
well-formed `<stack> <count>` with a non-negative count), the values of the
parsed map sum to the sum of the counts in the input, and re-emitting the
parsed map as collapsed lines and re-parsing yields the same map. -/
theorem parse_one_collapsed_sum_roundtrip (collapsed : PyStr)
    (hvalid : ∀ l ∈ pySplitlines collapsed, classifyLine l ≠ LineClass.bad) :
    sumValues (parse_one_collapsed collapsed none) =
      ((pySplitlines collapsed).map lineCount).sum ∧
    parse_one_collapsed (emitCollapsed (parse_one_collapsed collapsed none)) none =
      parse_one_collapsed collapsed none := by
  have hstacks := parse_stacks_eq collapsed none
  have hgood := buildStacks_good (pySplitlines collapsed)
    (pySplitlines_no_break collapsed) [] (by simp) (by simp [counterKeys])
  constructor
  · rw [hstacks]
    unfold buildStacks
    rw [buildStacks_sum]
    simp [sumValues]
  · rw [hstacks]
    exact parse_emit _ hgood.1 hgood.2

def demoCollapsedInput : PyStr := ("a;b 3\nc 2\na;b 1").data

/-- Witness for C8: a three-line collapsed input with a repeated stack. -/
theorem parse_one_collapsed_sum_roundtrip_witness :
    sumValues (parse_one_collapsed demoCollapsedInput none) =
      ((pySplitlines demoCollapsedInput).map lineCount).sum ∧
    parse_one_collapsed (emitCollapsed (parse_one_collapsed demoCollapsedInput none))
        none =
      parse_one_collapsed demoCollapsedInput none :=
  parse_one_collapsed_sum_roundtrip demoCollapsedInput (by decide)

/-! ## Perf script parsing (`gprofiler/utils/perf.py`)

`parse_perf_script` splits `perf script` output on `"\n\n"`, matches each
sample against `SAMPLE_REGEX` and each frame line against `FRAME_REGEX`.
The two regexes are embedded as their matching functions (`sampleMatch`
returns the `comm`, `pid` and optional dotall `stack` captures, `frameMatch`
the `symbol` and the matched dso group): the claim is about the control flow
of the parser for every possible match outcome, so the theorems quantify
over arbitrary matchers — and hence hold for the concrete regexes. -/

structure FrameMatchResult where
  symbol : PyStr
  dso : PyStr
deriving DecidableEq, Repr

structure SampleMatchResult where
  comm : PyStr
  pid : PyStr
  stack : Option PyStr
deriving DecidableEq, Repr

/-- Python substring test `needle in hay`. -/
def substringIn (needle : PyStr) : PyStr → Bool
  | [] => needle.isEmpty
  | c :: rest => needle.isPrefixOf (c :: rest) || substringIn needle rest

def joinWith (c : Char) : List PyStr → PyStr
  | [] => []
  | [l] => l
  | l :: rest => l ++ c :: joinWith c rest

/-- The per-frame transformation of `collapse_stack`: strip the `+<offset>`
suffix, substitute `(<dso>)` for unknown symbols with a known dso, annotate
kernel frames with `_[k]`, optionally append the dso name. -/
def collapse_frame (insert_dso_name : Bool) (fm : FrameMatchResult) : PyStr :=
  let sym := fm.symbol.takeWhile (· ≠ '+')
  if sym = ("[unknown]").data ∧ fm.dso ≠ ("unknown").data then
    '(' :: fm.dso ++ [')']
  else if substringIn ("kernel").data fm.dso || substringIn ("vmlinux").data fm.dso then
    sym ++ ("_[k]").data
  else if insert_dso_name then
    sym ++ ' ' :: '(' :: fm.dso ++ [')']
  else
    sym

def collapse_stack_go (frameMatch : PyStr → Option FrameMatchResult)
    (insert_dso_name : Bool) :
    List PyStr → List PyStr → Except Unit (List PyStr)
  | [], funcs => Except.ok funcs
  | line :: rest, funcs =>
    match frameMatch line with
    | none => Except.error ()
    | some fm =>
      collapse_stack_go frameMatch insert_dso_name rest
        (funcs ++ [collapse_frame insert_dso_name fm])

/-- `collapse_stack`: walk the frame lines bottom-up starting from the comm;
`assert m is not None` becomes `Except.error` (an `AssertionError`). -/
def collapse_stack (frameMatch : PyStr → Option FrameMatchResult)
    (comm stack : PyStr) (insert_dso_name : Bool) : Except Unit PyStr :=
  (collapse_stack_go frameMatch insert_dso_name (pySplitlines stack).reverse
    [comm]).map (joinWith ';')

/-- `script.split("\n\n")` — non-overlapping, left to right; the `pending`
flag records an unconsumed `'\n'` that may start a separator. -/
def splitDoubleNewlineGo : PyStr → PyStr → Bool → List PyStr
  | [], cur, pending => [(if pending then '\n' :: cur else cur).reverse]
  | c :: rest, cur, pending =>
    if pending then
      if c = '\n' then cur.reverse :: splitDoubleNewlineGo rest [] false
      else splitDoubleNewlineGo rest (c :: '\n' :: cur) false
    else if c = '\n' then
      splitDoubleNewlineGo rest cur true
    else
      splitDoubleNewlineGo rest (c :: cur) false

def splitDoubleNewline (s : PyStr) : List PyStr := splitDoubleNewlineGo s [] false

/-- `defaultdict(Counter)` update `counters[pid][key] += 1`. -/
def countersAdd (m : List (Int × List (PyStr × Int))) (pid : Int) (key : PyStr) :
    List (Int × List (PyStr × Int)) :=
  match m with
  | [] => [(pid, counterAdd [] key 1)]
  | (p, cnt) :: rest =>
    if p = pid then (p, counterAdd cnt key 1) :: rest
    else (p, cnt) :: countersAdd rest pid key

/-- The `try` body of the per-sample loop of `parse_perf_script`: blank and
`#`-comment samples contribute nothing; a sample-regex mismatch raises, a
malformed pid raises from `int()`, a frame-regex mismatch raises the
`AssertionError` out of `collapse_stack`; a sample with no stack group
touches no counter. -/
def process_perf_sample (sampleMatch : PyStr → Option SampleMatchResult)
    (frameMatch : PyStr → Option FrameMatchResult) (insert_dso_name : Bool)
    (counters : List (Int × List (PyStr × Int))) (sample : PyStr) :
    Except Unit (List (Int × List (PyStr × Int))) :=
  if pyStrip sample = [] then Except.ok counters
  else if sample.head? = some '#' then Except.ok counters
  else
    match sampleMatch sample with
    | none => Except.error ()
    | some d =>
      match pyInt d.pid with
      | none => Except.error ()
      | some pid =>
        match d.stack with
        | none => Except.ok counters
        | some stk =>
          match collapse_stack frameMatch d.comm stk insert_dso_name with
          | Except.error () => Except.error ()
          | Except.ok collapsed => Except.ok (countersAdd counters pid collapsed)

/-- `parse_perf_script`: the surrounding `except Exception` absorbs every
raise and keeps the counters accumulated so far; `None` input yields the
empty map. -/
def parse_perf_script (sampleMatch : PyStr → Option SampleMatchResult)
    (frameMatch : PyStr → Option FrameMatchResult) (insert_dso_name : Bool)
    (script : Option PyStr) : List (Int × List (PyStr × Int)) :=
  match script with
  | none => []
  | some s =>
    (splitDoubleNewline s).foldl
      (fun acc sample =>
        match process_perf_sample sampleMatch frameMatch insert_dso_name acc sample with
        | Except.ok acc2 => acc2
        | Except.error () => acc)
      []

/-- Pointwise description of one sample: `some (pid, collapsed)` exactly for
the well-formed samples that contribute a counter increment. -/
def classify_perf_sample (sampleMatch : PyStr → Option SampleMatchResult)
    (frameMatch : PyStr → Option FrameMatchResult) (insert_dso_name : Bool)
    (sample : PyStr) : Option (Int × PyStr) :=
  if pyStrip sample = [] then none
  else if sample.head? = some '#' then none
  else
    match sampleMatch sample with
    | none => none
    | some d =>
      match pyInt d.pid with
      | none => none
      | some pid =>
        match d.stack with
        | none => none
        | some stk =>
          match collapse_stack frameMatch d.comm stk insert_dso_name with
          | Except.error () => none
          | Except.ok collapsed => some (pid, collapsed)

theorem counterAdd_one_ne (cnt : List (PyStr × Int)) (key : PyStr) :
    ¬(counterAdd cnt key 1 = cnt) := by
  induction cnt with
  | nil => simp [counterAdd]
  | cons p rest ih =>
    obtain ⟨k', v'⟩ := p
    by_cases hk : k' = key
    · subst hk
      simp only [counterAdd, if_pos rfl]
      intro h
      obtain ⟨h1, -⟩ := (List.cons.injEq _ _ _ _).mp h
      have hv := congrArg Prod.snd h1
      simp at hv
    · simp only [counterAdd, if_neg hk]
      intro h
      exact ih ((List.cons.injEq _ _ _ _).mp h).2

theorem countersAdd_ne (acc : List (Int × List (PyStr × Int))) (pid : Int)
    (key : PyStr) : ¬(acc = countersAdd acc pid key) := by
  induction acc with
  | nil => simp [countersAdd]
  | cons p rest ih =>
    obtain ⟨q, cnt⟩ := p
    by_cases hq : q = pid
    · subst hq
      simp only [countersAdd, if_pos rfl]
      intro h
      obtain ⟨h1, -⟩ := (List.cons.injEq _ _ _ _).mp h
      exact counterAdd_one_ne cnt key (congrArg Prod.snd h1).symm
    · simp only [countersAdd, if_neg hq]
      intro h
      obtain ⟨-, h2⟩ := (List.cons.injEq _ _ _ _).mp h
      exact ih h2

theorem process_perf_sample_classify (sampleMatch : PyStr → Option SampleMatchResult)
    (frameMatch : PyStr → Option FrameMatchResult) (insert_dso_name : Bool)
    (acc : List (Int × List (PyStr × Int))) (sample : PyStr) :
    (match process_perf_sample sampleMatch frameMatch insert_dso_name acc sample with
      | Except.ok acc2 => acc2
      | Except.error () => acc) =
      (match classify_perf_sample sampleMatch frameMatch insert_dso_name sample with
        | some pc => countersAdd acc pc.1 pc.2
        | none => acc) := by
  unfold process_perf_sample classify_perf_sample
  by_cases h1 : pyStrip sample = []
  · simp [h1]
  by_cases h2 : sample.head? = some '#'
  · simp [h1, h2]
  simp only [if_neg h1, if_neg h2]
  match hs : sampleMatch sample with
  | none => simp
  | some d =>
    match hp : pyInt d.pid with
    | none => simp [hp]
    | some pid =>
      match hst : d.stack with
      | none => simp [hp, hst]
      | some stk =>
        match hcol : collapse_stack frameMatch d.comm stk insert_dso_name with
        | Except.error () => simp [hp, hst, hcol]
        | Except.ok collapsed => simp [hp, hst, hcol]

/-- Claim C10: `parse_perf_script` is total on every input, including
`None`: it equals the pure fold that adds one count per well-formed sample
and skips everything else — blank and comment samples contribute nothing,
and a sample whose header fails the sample regex, whose pid fails `int()`,
or whose frame lines fail the frame regex (the `collapse_stack` assert) is
caught and skipped, for every possible matcher behaviour. -/
theorem parse_perf_script_total (sampleMatch : PyStr → Option SampleMatchResult)
    (frameMatch : PyStr → Option FrameMatchResult) (insert_dso_name : Bool)
    (script : PyStr) :
    parse_perf_script sampleMatch frameMatch insert_dso_name none = [] ∧
    parse_perf_script sampleMatch frameMatch insert_dso_name (some script) =
      (splitDoubleNewline script).foldl
        (fun acc sample =>
          match classify_perf_sample sampleMatch frameMatch insert_dso_name sample with
          | some pc => countersAdd acc pc.1 pc.2
          | none => acc) [] ∧
    ∀ (acc : List (Int × List (PyStr × Int))) (sample : PyStr),
      process_perf_sample sampleMatch frameMatch insert_dso_name acc sample =
          Except.error () →
        classify_perf_sample sampleMatch frameMatch insert_dso_name sample = none := by
  refine ⟨rfl, ?_, ?_⟩
  · unfold parse_perf_script
    exact foldl_ext_mem _ _ _
      (fun acc sample _ =>
        process_perf_sample_classify sampleMatch frameMatch insert_dso_name acc sample) []
  · intro acc sample herr
    have := process_perf_sample_classify sampleMatch frameMatch insert_dso_name acc sample
    rw [herr] at this
    match hcl : classify_perf_sample sampleMatch frameMatch insert_dso_name sample with
    | none => rfl
    | some pc =>
      rw [hcl] at this
      exact absurd this (countersAdd_ne acc pc.1 pc.2)

/-- Witness for C10: a sample that fails the sample regex is classified as
contributing nothing — the raise inside the loop body was absorbed. -/
theorem parse_perf_script_total_witness :
    classify_perf_sample (fun _ => none) (fun _ => none) false (("x").data) = none :=
  (parse_perf_script_total (fun _ => none) (fun _ => none) false (("x").data)).2.2
    [] (("x").data) (by rfl)

end GProfiler
